import Mathlib

/-!
Verification of the varset repository's core subsystems against its
natural-language specification.

The development shallowly embeds the configuration loader
(`src/loader.ts`, third revision: `parseEnvFile`, `interpolateVariables`,
`loadEnvFromDir`, `loadEnvRecursive`, `loadEnvFromDirDown`) and the
permission store (`permissions.ts`: `validatePathSafety`,
`loadPermissions`, `allow`, `deny`, `isAllowed`) together with the
constants module (`MAX_FILE_SIZE`, `MAX_PERMISSIONS_ENTRIES`,
`DANGEROUS_ENV_VARS`, `SAFE_BASE_PATHS`).

Conventions used throughout:
* JavaScript strings are Lean `String`s; character-level algorithms work
  on `List Char` via `String.data`.
* JavaScript objects (string-keyed records in insertion order) are
  association lists `List (String × α)` with unique keys maintained by
  `objSet`, which mirrors `obj[k] = v` (overwrite in place, else append).
* `throw`ing code returns `Except VarsetError _`; the error type carries
  the payloads of the `ValidationError` / `SecurityError` classes from
  `errors.ts`.
* Filesystem-dependent inputs (file existence, `stat` results, `realpath`
  output, permission grants) are passed in explicitly as data.
-/

set_option autoImplicit false

namespace Varset

/-! ## Character classes and string utilities -/

/-- Whitespace characters removed by JavaScript `String.prototype.trim`
(restricted to the ASCII range, which is all the loader's tests exercise). -/
def isSpaceChar (c : Char) : Bool :=
  c = ' ' || c = '\t' || c = '\n' || c = '\r' || c = '\x0b' || c = '\x0c'

/-- First-character class of the variable-name regex `^[A-Za-z_][A-Za-z0-9_]*$`. -/
def isNameStartChar (c : Char) : Bool :=
  ('A' ≤ c && c ≤ 'Z') || ('a' ≤ c && c ≤ 'z') || c = '_'

/-- Continuation-character class of the variable-name regex. -/
def isNameChar (c : Char) : Bool :=
  isNameStartChar c || ('0' ≤ c && c ≤ '9')

/-- Test of the full regex `^[A-Za-z_][A-Za-z0-9_]*$` (also covers the
`key &&` truthiness check, since the empty string fails the regex). -/
def isValidName : List Char → Bool
  | [] => false
  | c :: rest => isNameStartChar c && rest.all isNameChar

/-- Drop leading JavaScript whitespace. -/
def trimLeft (l : List Char) : List Char :=
  l.dropWhile isSpaceChar

/-- Drop trailing JavaScript whitespace. -/
def trimRight (l : List Char) : List Char :=
  (l.reverse.dropWhile isSpaceChar).reverse

/-- JavaScript `String.prototype.trim` on character lists. -/
def trimChars (l : List Char) : List Char :=
  trimLeft (trimRight l)

/-- JavaScript `content.split("\n")` on character lists. -/
def splitNl : List Char → List (List Char)
  | [] => [[]]
  | c :: rest =>
    if c = '\n' then [] :: splitNl rest
    else
      match splitNl rest with
      | [] => [[c]]
      | l :: ls => (c :: l) :: ls

/-- JavaScript `String.prototype.includes`: `hasSub pat l` holds when `pat`
occurs contiguously inside `l`. -/
def hasSub (pat : List Char) : List Char → Bool
  | [] => pat.isEmpty
  | c :: rest => pat.isPrefixOf (c :: rest) || hasSub pat rest

/-- Index of the first `'='`, mirroring `cleanLine.indexOf("=")`
(`none` corresponds to `-1`). -/
def findEqIdx : List Char → Option Nat
  | [] => none
  | c :: rest =>
    if c = '=' then some 0
    else (findEqIdx rest).map (· + 1)

/-- Condition of loader.ts lines 401-402: the raw value both starts and ends
with `"` or both starts and ends with `'`. -/
def isQuoteWrapped (v : List Char) : Bool :=
  (v.head? = some '"' && v.getLast? = some '"') ||
  (v.head? = some '\'' && v.getLast? = some '\'')

/-- Quote stripping of loader.ts lines 401-404: `value.slice(1, -1)` when
`isQuoteWrapped`, the raw value otherwise. -/
def stripQuotes (v : List Char) : List Char :=
  if isQuoteWrapped v then (v.drop 1).dropLast else v

/-! ## JavaScript objects as association lists -/

/-- Environment-variable mapping (`EnvVars` in loader.ts): a string-keyed
object in insertion order. -/
abbrev EnvVars := List (String × String)

/-- JavaScript `Object.prototype.hasOwnProperty` for our object model. -/
def objHas {α : Type} : List (String × α) → String → Bool
  | [], _ => false
  | p :: rest, k => if p.1 = k then true else objHas rest k

/-- JavaScript property read `m[k]` (first — and by the `objSet` invariant,
only — binding of `k`). -/
def objGet {α : Type} : List (String × α) → String → Option α
  | [], _ => none
  | p :: rest, k => if p.1 = k then some p.2 else objGet rest k

/-- JavaScript property write `m[k] = v`: overwrite the existing binding in
place, otherwise append a new one. -/
def objSet {α : Type} (m : List (String × α)) (k : String) (v : α) :
    List (String × α) :=
  if objHas m k then m.map (fun p => if p.1 = k then (k, v) else p)
  else m ++ [(k, v)]

/-- JavaScript `Object.assign(tgt, src)`: copy every binding of `src` onto
`tgt` in insertion order. -/
def objAssign {α : Type} (tgt src : List (String × α)) : List (String × α) :=
  src.foldl (fun acc p => objSet acc p.1 p.2) tgt

/-- Merge loop of `loadEnvRecursive` (loader.ts lines 507-512): the chain is
listed innermost (start directory) first; the loop assigns outermost first,
innermost last, so later (nearer) assignments overwrite earlier ones. -/
def mergeChain (dirVars : List EnvVars) : EnvVars :=
  dirVars.reverse.foldl objAssign []

/-! ## Errors

The thrown exceptions of `errors.ts` relevant to the core: every
constructor below except `pathTraversal` models a `ValidationError`;
`pathTraversal` models a `SecurityError`. -/

/-- Payloads of the exceptions thrown by the embedded code. -/
inductive VarsetError : Type
  /-- ValidationError from `interpolateVariables`: circular reference; the
  chain is `visiting ++ [key]` in insertion order. -/
  | circular (chain : List String)
  /-- ValidationError from `interpolateVariables`: recursion depth above
  `MAX_INTERPOLATION_DEPTH` while resolving `key`. -/
  | interpolationDepth (key : String)
  /-- ValidationError from `safeReadFile`: configuration file over
  `MAX_FILE_SIZE`. -/
  | envFileTooLarge (size : Nat)
  /-- ValidationError from `loadPermissions`: store file over `MAX_FILE_SIZE`. -/
  | permsFileTooLarge (size : Nat)
  /-- ValidationError from `loadPermissions`: more than
  `MAX_PERMISSIONS_ENTRIES` entries. -/
  | tooManyPermEntries (count : Nat)
  /-- ValidationError from `validatePathSafety`: empty path. -/
  | emptyPath
  /-- SecurityError from `validatePathSafety`: the raw path contains `..`. -/
  | pathTraversal (path : String)
  deriving DecidableEq, Repr

/-- Decidable equality for `Except` results, used to state and check
concrete runs of the embedded functions. -/
instance {ε α : Type} [DecidableEq ε] [DecidableEq α] :
    DecidableEq (Except ε α) := fun a b =>
  match a, b with
  | .ok x, .ok y =>
    if h : x = y then .isTrue (by rw [h])
    else .isFalse (by intro hc; cases hc; exact h rfl)
  | .error x, .error y =>
    if h : x = y then .isTrue (by rw [h])
    else .isFalse (by intro hc; cases hc; exact h rfl)
  | .ok _, .error _ => .isFalse (by intro hc; cases hc)
  | .error _, .ok _ => .isFalse (by intro hc; cases hc)

/-- Classifies the errors raised as the `SecurityError` class. -/
def VarsetError.isSecurityError : VarsetError → Bool
  | .pathTraversal _ => true
  | _ => false

/-- Classifies the errors raised as the `ValidationError` class. -/
def VarsetError.isValidationError : VarsetError → Bool
  | .pathTraversal _ => false
  | _ => true

/-- Rendered `message` field of the two interpolation errors, exactly as
built at loader.ts lines 345-346 and 352-353. -/
def VarsetError.message : VarsetError → String
  | .circular chain =>
    "Circular variable reference detected: " ++ String.intercalate " -> " chain
  | .interpolationDepth key =>
    "Variable interpolation depth exceeded for " ++ key ++ " (max 10 levels)"
  | _ => ""

/-! ## Interpolation (loader.ts lines 333-374)

`value.replace(/\$\x7b([A-Za-z_][A-Za-z0-9_]*)\x7d/g, cb)` scans the value
left to right for non-overlapping `$\x7bNAME\x7d` occurrences.  Because the
name class cannot match `\x7d` and a match must begin with `$`, the regex
match at a given `$` succeeds exactly when the maximal run of name
characters after `$\x7b` is a valid name followed by `\x7d`.  We first
tokenize the value with exactly that rule, then substitute tokens. -/

/-- One unit of a scanned value: a literal character or a whole
`$\x7bNAME\x7d` reference. -/
inductive Tok : Type
  | lit (c : Char)
  | ref (name : String)
  deriving DecidableEq, Repr

/-- Left-to-right, non-overlapping scan for the interpolation regex, with a
structural fuel counter so that the kernel can evaluate it.  Every step
consumes at least one character, so with the fuel above the remaining input
length (as `tokenize` arranges) the fuel-exhausted branch is unreachable. -/
def tokenizeF : Nat → List Char → List Tok
  | 0, _ => []
  | _ + 1, [] => []
  | fuel + 1, c :: rest =>
    -- a match attempt starts iff the scanner sees `$` followed by `{`
    if c = '$' ∧ rest.head? = some '{' then
      let rest2 := rest.tail
      let name := rest2.takeWhile isNameChar
      if isValidName name ∧ (rest2.drop name.length).head? = some '}' then
        .ref (String.mk name) :: tokenizeF fuel (rest2.drop name.length).tail
      else
        -- failed attempt: emit `$`, resume scanning at the `{`
        .lit '$' :: tokenizeF fuel rest
    else
      .lit c :: tokenizeF fuel rest

/-- Left-to-right, non-overlapping scan for the interpolation regex. -/
def tokenize (cs : List Char) : List Tok :=
  tokenizeF (cs.length + 1) cs

/-- Inverse rendering of a token stream back to text. -/
def renderToks : List Tok → List Char
  | [] => []
  | .lit c :: rest => c :: renderToks rest
  | .ref n :: rest => '$' :: '{' :: (n.data ++ '}' :: renderToks rest)

/-- Names of all references occurring in a value. -/
def refNames (cs : List Char) : List String :=
  (tokenize cs).filterMap fun t =>
    match t with
    | .ref n => some n
    | .lit _ => none

/-- Maximum interpolation recursion depth (loader.ts line 335). -/
def MAX_INTERPOLATION_DEPTH : Nat := 10

/-- Embedding of the replacement pass of `resolve` (loader.ts lines
360-366): each reference to a name the object owns is resolved via
`resolveNext` (the one-level-deeper resolver closed over the new visiting
set); unknown names are left verbatim. -/
def substToks (vars : EnvVars)
    (resolveNext : String → Except VarsetError String) :
    List Tok → Except VarsetError String
  | [] => .ok ""
  | .lit c :: rest =>
    match substToks vars resolveNext rest with
    | .error e => .error e
    | .ok s => .ok (String.mk (c :: s.data))
  | .ref n :: rest =>
    if objHas vars n then
      match resolveNext n with
      | .error e => .error e
      | .ok rep =>
        match substToks vars resolveNext rest with
        | .error e => .error e
        | .ok s => .ok (rep ++ s)
    else
      match substToks vars resolveNext rest with
      | .error e => .error e
      | .ok s => .ok ("$\x7b" ++ n ++ "\x7d" ++ s)

/-- Embedding of `resolve(key, visiting, depth)` (loader.ts lines 337-367).
The TypeScript depth counter is encoded downwards as
`g = MAX_INTERPOLATION_DEPTH + 2 - depth` (so the top-level `depth = 0` is
`g = 12`, and the recursion is structural on `g`): the guard `depth > 10`
becomes `g ≤ 1`, and each nested resolution decrements `g` instead of
incrementing `depth`. -/
def resolveVar (vars : EnvVars) : Nat → String → List String →
    Except VarsetError String
  | 0, key, _ =>
    -- `if (!value) return ""` precedes the `depth > MAX` guard
    (match objGet vars key with
    | none => .ok ""
    | some v =>
      if v = "" then .ok "" else .error (.interpolationDepth key))
  | 1, key, _ =>
    (match objGet vars key with
    | none => .ok ""
    | some v =>
      if v = "" then .ok "" else .error (.interpolationDepth key))
  | g' + 2, key, visiting =>
    match objGet vars key with
    | none => .ok ""
    | some v =>
      -- `if (!value) return ""`: undefined and empty string are both falsy
      if v = "" then .ok ""
      else if visiting.contains key then
        .error (.circular (visiting ++ [key]))
      else
        substToks vars
          (fun n => resolveVar vars (g' + 1) n (visiting ++ [key]))
          (tokenize v.data)

/-- Unfolding equation of `resolveVar` at gas 0: the depth guard fires (for
a non-empty defined value) before anything else. -/
theorem resolveVar_zero (vars : EnvVars) (key : String) (vis : List String) :
    resolveVar vars 0 key vis =
      match objGet vars key with
      | none => .ok ""
      | some v =>
        if v = "" then .ok "" else .error (.interpolationDepth key) := rfl

/-- Unfolding equation of `resolveVar` at gas 1 (the other half of the
`depth > MAX_INTERPOLATION_DEPTH` guard). -/
theorem resolveVar_one (vars : EnvVars) (key : String) (vis : List String) :
    resolveVar vars 1 key vis =
      match objGet vars key with
      | none => .ok ""
      | some v =>
        if v = "" then .ok "" else .error (.interpolationDepth key) := rfl

/-- Unfolding equation of `resolveVar` at gas `g2 + 2`: value lookup, depth
guard (passed), cycle guard, then substitution one level deeper. -/
theorem resolveVar_succ2 (vars : EnvVars) (g2 : Nat) (key : String)
    (vis : List String) :
    resolveVar vars (Nat.succ (Nat.succ g2)) key vis =
      match objGet vars key with
      | none => .ok ""
      | some v =>
        if v = "" then .ok ""
        else if vis.contains key then .error (.circular (vis ++ [key]))
        else
          substToks vars
            (fun n => resolveVar vars (Nat.succ g2) n (vis ++ [key]))
            (tokenize v.data) := rfl

/-- Embedding of the `for (const key of Object.keys(vars))` loop of
`interpolateVariables` (loader.ts lines 369-371). -/
def interpolateKeys (vars : EnvVars) : List (String × String) → EnvVars →
    Except VarsetError EnvVars
  | [], resolved => .ok resolved
  | p :: rest, resolved =>
    match resolveVar vars (MAX_INTERPOLATION_DEPTH + 2) p.1 [] with
    | .error e => .error e
    | .ok r => interpolateKeys vars rest (objSet resolved p.1 r)

/-- Embedding of `interpolateVariables` (loader.ts lines 333-374). -/
def interpolateVariables (vars : EnvVars) : Except VarsetError EnvVars :=
  interpolateKeys vars vars []

/-! ## Parsing (loader.ts lines 376-421) -/

/-- Fixed denylist `DANGEROUS_ENV_VARS` of the constants module. -/
def DANGEROUS_ENV_VARS : List String :=
  ["LD_PRELOAD", "LD_LIBRARY_PATH", "LD_AUDIT", "LD_BIND_NOW",
   "DYLD_INSERT_LIBRARIES", "DYLD_LIBRARY_PATH", "DYLD_PRELOAD",
   "DYLD_FRAMEWORK_PATH", "DYLD_FALLBACK_LIBRARY_PATH",
   "ASAN_PRELOAD", "UBSAN_PRELOAD", "TSAN_PRELOAD", "LSAN_PRELOAD",
   "PATH", "PYTHONPATH", "RUBYLIB", "PERL5LIB", "NODE_PATH", "GEM_PATH",
   "JAVA_TOOL_OPTIONS",
   "SHELL", "ZDOTDIR", "ENV", "BASH_ENV", "ZSH_ENV", "POSIXLY_CORRECT",
   "TERMINFO", "TERMINFO_DIRS", "LD_DEBUG",
   "CONDA_PREFIX", "VIRTUAL_ENV", "GOPATH", "RUSTUP_HOME", "CARGO_HOME"]

/-- Line-shape analysis of the loop body of `parseEnvFile` (loader.ts lines
381-399): trim, skip blank and comment lines, strip a leading `export `,
split at the first `=`, trim both sides, strip one quote layer from the
value.  Returns the candidate key/value pair, or `none` for a skipped
line. -/
def parseLine (line : List Char) : Option (List Char × List Char) :=
  let trimmed := trimChars line
  match trimmed with
  | [] => none
  | c :: _ =>
    if c = '#' then none
    else
      let cleanLine :=
        if "export ".data.isPrefixOf trimmed then trimmed.drop 7 else trimmed
      match findEqIdx cleanLine with
      | none => none
      | some i =>
        some (trimChars (cleanLine.take i),
          stripQuotes (trimChars (cleanLine.drop (i + 1))))

/-- Body of the `for (const line of lines)` loop of `parseEnvFile`
(loader.ts lines 381-413).  The accumulator carries the working mapping and
the list of dangerous names encountered (used only for the aggregated
warning at lines 415-417). -/
def processLine (acc : EnvVars × List String) (line : List Char) :
    EnvVars × List String :=
  match parseLine line with
  | none => acc
  | some (key, value) =>
    if isValidName key then
      if DANGEROUS_ENV_VARS.contains (String.mk key) then
        (acc.1, acc.2 ++ [String.mk key])
      else
        (objSet acc.1 (String.mk key) (String.mk value), acc.2)
    else acc

/-- Embedding of `parseEnvFile(content)` (loader.ts lines 376-421): line
loop, then interpolation.  The `filePath` parameter of the original only
feeds the warning text and is omitted; the aggregated dangerous-variable
warning is a `console.warn` without effect on the result. -/
def parseEnvFile (content : String) : Except VarsetError EnvVars :=
  let st := (splitNl content.data).foldl processLine ([], [])
  interpolateVariables st.1

/-! ## Permission store (permissions.ts, first revision in part_003) -/

/-- `MAX_FILE_SIZE` from the constants module: 1 MB. -/
def MAX_FILE_SIZE : Nat := 1024 * 1024

/-- `MAX_PERMISSIONS_ENTRIES` from the constants module. -/
def MAX_PERMISSIONS_ENTRIES : Nat := 10000

/-- One value of the permission store: `{ allowed, timestamp }`. -/
structure PermEntry : Type where
  allowed : Bool
  timestamp : Nat
  deriving DecidableEq, Repr

/-- The permission store object, keyed by canonicalized absolute path. -/
abbrev Permissions := List (String × PermEntry)

/-- Embedding of `validatePathSafety(filePath)` (permissions.ts lines
38-81).  `realpath`/`path.resolve` are filesystem-dependent, so the
normalized form that the function would compute at lines 53-66 is passed in
as `norm`; `home` instantiates `process.env.HOME`.  The returned boolean
records whether the non-fatal out-of-bounds warning at lines 78-80 was
emitted. -/
def validatePathSafety (home p norm : String) : Except VarsetError Bool :=
  if p = "" then .error .emptyPath
  else if hasSub "..".data p.data then .error (.pathTraversal p)
  else if hasSub "/test".data p.data || hasSub "/tmp".data p.data ||
      hasSub "/.".data p.data then .ok false
  else
    let safe := [home, "/opt", "/tmp"].any fun s =>
      let ns := if s.data.getLast? = some '/' then s else s ++ "/"
      norm = s || ns.data.isPrefixOf norm.data
    .ok (!safe)

/-- Embedding of `loadPermissions()` (permissions.ts lines 83-117) with the
filesystem abstracted: `stat` is the store file's size when `file.stat()`
succeeds (`none` when it throws, e.g. a missing file), and `parsed` is the
`JSON.parse` result (`none` when it throws `SyntaxError`).  The returned
flag records the corrupted-store warning of line 106.  The `catch` clause
rethrows `ValidationError`s and converts everything else to an empty
store. -/
def loadPermissions (stat : Option Nat) (parsed : Option Permissions) :
    Except VarsetError (Permissions × Bool) :=
  match stat with
  | none => .ok ([], false)
  | some size =>
    if size > MAX_FILE_SIZE then .error (.permsFileTooLarge size)
    else
      match parsed with
      | none => .ok ([], true)
      | some perms =>
        if perms.length > MAX_PERMISSIONS_ENTRIES then
          .error (.tooManyPermEntries perms.length)
        else .ok (perms, false)

/-- Embedding of `allow(filePath)` (permissions.ts lines 134-141) with the
persisted store passed and returned explicitly; `canon` is the
`normalizePath` result (realpath with lexical fallback, never throwing) and
`now` the `Date.now()` stamp. -/
def allowPath (home : String) (perms : Permissions) (p norm canon : String)
    (now : Nat) : Except VarsetError Permissions :=
  match validatePathSafety home p norm with
  | .error e => .error e
  | .ok _ => .ok (objSet perms canon ⟨true, now⟩)

/-- Embedding of `deny(filePath)` (permissions.ts lines 143-150). -/
def denyPath (home : String) (perms : Permissions) (p norm canon : String)
    (now : Nat) : Except VarsetError Permissions :=
  match validatePathSafety home p norm with
  | .error e => .error e
  | .ok _ => .ok (objSet perms canon ⟨false, now⟩)

/-- Embedding of `isAllowed(filePath)` (permissions.ts lines 152-168):
a path-safety failure is caught and answered with `false`; otherwise the
canonical path is looked up and the entry's `allowed` field decides. -/
def isAllowed (home : String) (perms : Permissions) (p norm canon : String) :
    Bool :=
  match validatePathSafety home p norm with
  | .error _ => false
  | .ok _ =>
    match objGet perms canon with
    | none => false
    | some entry => entry.allowed

/-! ## Directory-chain walk (loader.ts lines 463-515) -/

/-- One directory of the (already `realpath`-resolved) parent chain from the
start directory upward, as seen by the walk loop: its `stat` result —
`none` when `stat` throws, otherwise the `(st.dev, st.ino)` pair — and
whether it equals `HOME_DIR` or `"/"` (the stop test of line 491). -/
structure WalkDir : Type where
  stat : Option (Nat × Nat)
  isStop : Bool
  deriving DecidableEq, Repr

/-- Embedding of the collection loop of `loadEnvRecursive` (loader.ts lines
474-505): walk the chain (any list whose elements carry a `WalkDir` through
`statOf`), stopping at a `stat` failure, at a directory whose inode number
is already in the visited set, or after a home/root directory.  Note the
visited set holds `st.ino` only. -/
def collectChain {α : Type} (statOf : α → WalkDir) :
    List α → List Nat → List α
  | [], _ => []
  | d :: rest, seen =>
    match (statOf d).stat with
    | none => []
    | some st =>
      if seen.contains st.2 then []
      else
        d :: (if (statOf d).isStop then [] else collectChain statOf rest (st.2 :: seen))

/-- Modelled from the spec: the same collection loop as `collectChain`, but
with the visited set tracking device+inode identity, as §4.4 of the spec
describes ("tracked by device+inode identity").  Used only to compare the
spec's words with the code. -/
def collectChainDevIno : List WalkDir → List (Nat × Nat) → List WalkDir
  | [], _ => []
  | d :: rest, seen =>
    match d.stat with
    | none => []
    | some st =>
      if seen.contains st then []
      else d :: (if d.isStop then [] else collectChainDevIno rest (st :: seen))

/-! ## Per-directory loading (loader.ts lines 423-461 and 517-556) -/

/-- Filesystem facts about one directory that `loadEnvFromDir` consults:
existence, grant decision and size check for `.envrc` and for the active
profile's overlay file.  `isAllowed` can itself throw (its `loadPermissions`
call may raise a ValidationError), hence the `Except` type of the grant
fields. -/
structure DirConfig : Type where
  envrcExists : Bool
  envrcAllowed : Except VarsetError Bool
  envrcSize : Nat
  envrcContent : String
  profName : Option String
  profExists : Bool
  profAllowed : Except VarsetError Bool
  profSize : Nat
  profContent : String

/-- Shared load step for one configuration file: existence check, permission
check, `safeReadFile` size guard, then parse.  Any `.error` result is what
the corresponding `try` block would have thrown. -/
def loadFileStep (exists_ : Bool) (allowed : Except VarsetError Bool)
    (size : Nat) (content : String) : Except VarsetError EnvVars :=
  if exists_ then
    match allowed with
    | .error e => .error e
    | .ok false => .ok []
    | .ok true =>
      if size > MAX_FILE_SIZE then .error (.envFileTooLarge size)
      else parseEnvFile content
  else .ok []

/-- Embedding of `loadEnvFromDir(dirPath)` (loader.ts lines 423-461): the
base-file block and the profile block are each wrapped in
`try {...} catch { /- continue on error -/ }`, so a thrown error leaves the
accumulated `vars` unchanged. -/
def loadEnvFromDir (d : DirConfig) : EnvVars :=
  let base : EnvVars :=
    match loadFileStep d.envrcExists d.envrcAllowed d.envrcSize d.envrcContent with
    | .ok m => m
    | .error _ => []
  let prof : Except VarsetError EnvVars :=
    match d.profName with
    | none => .ok []
    | some _ => loadFileStep d.profExists d.profAllowed d.profSize d.profContent
  match prof with
  | .ok m => objAssign base m
  | .error _ => base

/-- Embedding of `loadEnvFromDirDown(startDir)` (loader.ts lines 517-556),
whose per-directory logic coincides with `loadEnvFromDir`. -/
def loadEnvFromDirDown (d : DirConfig) : EnvVars :=
  loadEnvFromDir d

/-- Merge stage of `loadEnvRecursive` applied to a directory chain (listed
innermost first, as collected by the walk): each directory's variables are
loaded with `loadEnvFromDir` and merged outermost first. -/
def loadChain (ds : List DirConfig) : EnvVars :=
  mergeChain (ds.map loadEnvFromDir)

/-- Embedding of `loadEnvRecursive(startDir)` (loader.ts lines 463-515):
the chain walk over the resolved parent chain (each entry carrying its
`stat` data and its directory's configuration), then the merge loop. -/
def loadEnvRecursive (chain : List (WalkDir × DirConfig)) : EnvVars :=
  loadChain ((collectChain Prod.fst chain []).map Prod.snd)

/-! ## Lemmas about the object model -/

/-- Key list of an object. -/
def keysOf {α : Type} (m : List (String × α)) : List String :=
  m.map Prod.fst

/-- Lookup of the last binding of a key (what a left fold of `objSet`
observes). -/
def objGetLast {α : Type} (m : List (String × α)) (k : String) : Option α :=
  objGet m.reverse k

@[simp] theorem objGet_nil {α : Type} (k : String) :
    objGet ([] : List (String × α)) k = none := rfl

@[simp] theorem objGet_cons {α : Type} (p : String × α)
    (m : List (String × α)) (k : String) :
    objGet (p :: m) k = if p.1 = k then some p.2 else objGet m k := rfl

theorem objGet_eq_none_iff {α : Type} (m : List (String × α)) (k : String) :
    objGet m k = none ↔ ∀ p ∈ m, p.1 ≠ k := by
  induction m with
  | nil => simp
  | cons p rest ih =>
    by_cases h : p.1 = k <;> simp [h, ih]

theorem objGet_append {α : Type} (a b : List (String × α)) (k : String) :
    objGet (a ++ b) k =
      match objGet a k with
      | some v => some v
      | none => objGet b k := by
  induction a with
  | nil => simp
  | cons p rest ih =>
    by_cases h : p.1 = k <;> simp [h, ih]

theorem objHas_iff_objGet {α : Type} (m : List (String × α)) (k : String) :
    objHas m k = true ↔ objGet m k ≠ none := by
  induction m with
  | nil => simp [objHas]
  | cons p rest ih =>
    by_cases h : p.1 = k <;> simp [objHas, h, ih]

theorem objGet_substMap_self {α : Type} (m : List (String × α))
    (k : String) (v : α) (h : objGet m k ≠ none) :
    objGet (m.map fun p => if p.1 = k then (k, v) else p) k = some v := by
  induction m with
  | nil => simp at h
  | cons p rest ih =>
    by_cases hp : p.1 = k
    · simp [hp]
    · simp only [objGet_cons, hp, if_false] at h
      simp [hp, ih h]

theorem objGet_substMap_ne {α : Type} (m : List (String × α))
    (k k' : String) (v : α) (h : k' ≠ k) :
    objGet (m.map fun p => if p.1 = k' then (k', v) else p) k = objGet m k := by
  induction m with
  | nil => simp
  | cons p rest ih =>
    by_cases hp : p.1 = k'
    · have : p.1 ≠ k := by rw [hp]; exact h
      simp [hp, this, h, Ne.symm h, ih]
    · by_cases hpk : p.1 = k <;> simp [hp, hpk, Ne.symm h, ih]

@[simp] theorem objGet_objSet_self {α : Type} (m : List (String × α))
    (k : String) (v : α) : objGet (objSet m k v) k = some v := by
  unfold objSet
  by_cases h : objHas m k = true
  · simp only [h, if_true]
    exact objGet_substMap_self m k v ((objHas_iff_objGet m k).mp h)
  · simp only [h]
    have hg : objGet m k = none := by
      by_contra hc
      exact h ((objHas_iff_objGet m k).mpr hc)
    simp [objGet_append, hg]

theorem objGet_objSet_ne {α : Type} (m : List (String × α))
    (k k' : String) (v : α) (h : k' ≠ k) :
    objGet (objSet m k' v) k = objGet m k := by
  unfold objSet
  by_cases hh : objHas m k' = true
  · simp only [hh, if_true]
    exact objGet_substMap_ne m k k' v h
  · rw [if_neg hh, objGet_append]
    cases hg : objGet m k with
    | some v => simp
    | none => simp [h]

theorem keysOf_objSet_nodup {α : Type} (m : List (String × α))
    (k : String) (v : α) (h : (keysOf m).Nodup) :
    (keysOf (objSet m k v)).Nodup := by
  unfold objSet
  by_cases hh : objHas m k = true
  · simp only [hh, if_true]
    have : keysOf (m.map fun p => if p.1 = k then (k, v) else p) = keysOf m := by
      unfold keysOf
      rw [List.map_map]
      apply List.map_congr_left
      intro p _
      by_cases hp : p.1 = k <;> simp [hp]
    rw [this]; exact h
  · have hg : objGet m k = none := by
      by_contra hc
      exact hh ((objHas_iff_objGet m k).mpr hc)
    have hk : k ∉ keysOf m := by
      intro hmem
      unfold keysOf at hmem
      rcases List.mem_map.mp hmem with ⟨p, hp, hpk⟩
      exact (objGet_eq_none_iff m k).mp hg p hp hpk
    rw [if_neg hh]
    unfold keysOf at h ⊢
    rw [List.map_append, List.nodup_append]
    refine ⟨h, List.nodup_singleton _, ?_⟩
    intro a ha hb
    simp only [List.map_cons, List.map_nil, List.mem_singleton] at hb
    subst hb
    exact hk ha

theorem objGet_objAssign {α : Type} (src tgt : List (String × α)) (k : String) :
    objGet (objAssign tgt src) k =
      match objGetLast src k with
      | some v => some v
      | none => objGet tgt k := by
  induction src generalizing tgt with
  | nil => simp [objAssign, objGetLast]
  | cons p rest ih =>
    show objGet (objAssign (objSet tgt p.1 p.2) rest) k = _
    rw [ih]
    unfold objGetLast
    rw [List.reverse_cons, objGet_append]
    cases hrest : objGet rest.reverse k with
    | some v => simp
    | none =>
      by_cases hp : p.1 = k
      · subst hp; simp
      · simp [hp, objGet_objSet_ne tgt k p.1 p.2 hp]

theorem objGetLast_eq_objGet_of_nodup {α : Type} (m : List (String × α))
    (k : String) (h : (keysOf m).Nodup) : objGetLast m k = objGet m k := by
  induction m with
  | nil => rfl
  | cons p rest ih =>
    unfold objGetLast
    rw [List.reverse_cons, objGet_append]
    unfold keysOf at h
    simp only [List.map_cons, List.nodup_cons] at h
    by_cases hp : p.1 = k
    · have hnone : objGet rest k = none := by
        rw [objGet_eq_none_iff]
        intro q hq hqk
        apply h.1
        have hmem : q.1 ∈ List.map Prod.fst rest := List.mem_map_of_mem _ hq
        rwa [hqk, ← hp] at hmem
      have hrev : objGet rest.reverse k = none := by
        rw [objGet_eq_none_iff]
        intro q hq hqk
        exact (objGet_eq_none_iff rest k).mp hnone q (List.mem_reverse.mp hq) hqk
      simp [hrev, hp, hnone]
    · have hrec := ih h.2
      unfold objGetLast at hrec
      rw [hrec]
      cases hg : objGet rest k with
      | some v => simp [hp, hg]
      | none => simp [hp, hg]

theorem objAssign_keys_nodup {α : Type} (tgt src : List (String × α))
    (h : (keysOf tgt).Nodup) : (keysOf (objAssign tgt src)).Nodup := by
  induction src generalizing tgt with
  | nil => exact h
  | cons p rest ih => exact ih _ (keysOf_objSet_nodup tgt p.1 p.2 h)

theorem objGet_objAssign_none {α : Type} (tgt src : List (String × α))
    (k : String) (ht : objGet tgt k = none) (hs : objGet src k = none) :
    objGet (objAssign tgt src) k = none := by
  rw [objGet_objAssign]
  have : objGetLast src k = none := by
    unfold objGetLast
    rw [objGet_eq_none_iff]
    intro p hp
    exact (objGet_eq_none_iff src k).mp hs p (List.mem_reverse.mp hp)
  simp [this, ht]

/-! ## Lemmas about the merge loop -/

@[simp] theorem mergeChain_nil : mergeChain [] = [] := rfl

theorem mergeChain_cons (d : EnvVars) (rest : List EnvVars) :
    mergeChain (d :: rest) = objAssign (mergeChain rest) d := by
  unfold mergeChain
  rw [List.reverse_cons, List.foldl_append]
  rfl

/-- The merge loop resolves every key to the value from the earliest
(innermost) chain element that defines it. -/
theorem mergeChain_innermost (ms : List EnvVars)
    (hnd : ∀ m ∈ ms, (keysOf m).Nodup) (i : Nat) (hi : i < ms.length)
    (k v : String) (hdef : objGet (ms.get ⟨i, hi⟩) k = some v)
    (hnone : ∀ j (hj : j < i),
      objGet (ms.get ⟨j, Nat.lt_trans hj hi⟩) k = none) :
    objGet (mergeChain ms) k = some v := by
  induction ms generalizing i with
  | nil => exact absurd hi (Nat.not_lt_zero i)
  | cons m rest ih =>
    rw [mergeChain_cons, objGet_objAssign]
    cases i with
    | zero =>
      have hm : objGet m k = some v := hdef
      rw [objGetLast_eq_objGet_of_nodup m k (hnd m (List.mem_cons_self m rest))]
      simp [hm]
    | succ i' =>
      have hm : objGet m k = none := hnone 0 (Nat.succ_pos i')
      have hml : objGetLast m k = none := by
        rw [objGetLast_eq_objGet_of_nodup m k (hnd m (List.mem_cons_self m rest))]
        exact hm
      rw [hml]
      exact ih (fun x hx => hnd x (List.mem_cons_of_mem m hx))
        i' (Nat.lt_of_succ_lt_succ hi) hdef
        (fun j hj => hnone (j + 1) (Nat.succ_lt_succ hj))

theorem mergeChain_none (ms : List EnvVars) (k : String)
    (h : ∀ m ∈ ms, objGet m k = none) : objGet (mergeChain ms) k = none := by
  induction ms with
  | nil => rfl
  | cons m rest ih =>
    rw [mergeChain_cons]
    exact objGet_objAssign_none _ _ k
      (ih fun x hx => h x (List.mem_cons_of_mem m hx))
      (h m (List.mem_cons_self m rest))

/-! ## Lemmas about the parser -/

/-- Each loop iteration either leaves the mapping unchanged or performs one
guarded insertion of a valid, non-dangerous key. -/
theorem processLine_shape (acc : EnvVars × List String) (line : List Char) :
    (processLine acc line).1 = acc.1 ∨
    ∃ kc vc, isValidName kc = true ∧
      DANGEROUS_ENV_VARS.contains (String.mk kc) = false ∧
      (processLine acc line).1 = objSet acc.1 (String.mk kc) (String.mk vc) := by
  unfold processLine
  cases hp : parseLine line with
  | none => exact Or.inl rfl
  | some kv =>
    by_cases hv : isValidName kv.1 = true
    · by_cases hd : DANGEROUS_ENV_VARS.contains (String.mk kv.1) = true
      · have hd' : (String.mk kv.1) ∈ DANGEROUS_ENV_VARS := by simpa using hd
        left; simp [hv, hd']
      · have hd' : (String.mk kv.1) ∉ DANGEROUS_ENV_VARS := by simpa using hd
        right
        refine ⟨kv.1, kv.2, hv, ?_, ?_⟩
        · simp only [Bool.not_eq_true] at hd; exact hd
        · simp [hv, hd']
    · left; simp [hv]

theorem foldl_processLine_nodup (lines : List (List Char))
    (acc : EnvVars × List String) (h : (keysOf acc.1).Nodup) :
    (keysOf (lines.foldl processLine acc).1).Nodup := by
  induction lines generalizing acc with
  | nil => exact h
  | cons line rest ih =>
    apply ih
    rcases processLine_shape acc line with hs | ⟨kc, vc, _, _, hs⟩
    · rw [hs]; exact h
    · rw [hs]; exact keysOf_objSet_nodup _ _ _ h

theorem foldl_processLine_dangerous (lines : List (List Char))
    (acc : EnvVars × List String) (k : String)
    (hk : k ∈ DANGEROUS_ENV_VARS) (h : objGet acc.1 k = none) :
    objGet (lines.foldl processLine acc).1 k = none := by
  induction lines generalizing acc with
  | nil => exact h
  | cons line rest ih =>
    apply ih
    rcases processLine_shape acc line with hs | ⟨kc, vc, _, hd, hs⟩
    · rw [hs]; exact h
    · rw [hs]
      rw [objGet_objSet_ne]
      · exact h
      · intro hkk
        rw [hkk] at hd
        simp at hd
        exact hd hk

theorem interpolateKeys_nodup (vars : EnvVars) (l : List (String × String))
    (acc : EnvVars) (h : (keysOf acc).Nodup) (m : EnvVars)
    (he : interpolateKeys vars l acc = .ok m) : (keysOf m).Nodup := by
  induction l generalizing acc with
  | nil => cases he; exact h
  | cons p rest ih =>
    unfold interpolateKeys at he
    cases hr : resolveVar vars (MAX_INTERPOLATION_DEPTH + 2) p.1 [] with
    | error e => rw [hr] at he; cases he
    | ok r =>
      rw [hr] at he
      exact ih _ (keysOf_objSet_nodup _ _ _ h) he

theorem interpolateKeys_none (vars : EnvVars) (l : List (String × String))
    (acc : EnvVars) (k : String) (hl : ∀ p ∈ l, p.1 ≠ k)
    (hacc : objGet acc k = none) (m : EnvVars)
    (he : interpolateKeys vars l acc = .ok m) : objGet m k = none := by
  induction l generalizing acc with
  | nil => cases he; exact hacc
  | cons p rest ih =>
    unfold interpolateKeys at he
    cases hr : resolveVar vars (MAX_INTERPOLATION_DEPTH + 2) p.1 [] with
    | error e => rw [hr] at he; cases he
    | ok r =>
      rw [hr] at he
      refine ih _ (fun q hq => hl q (List.mem_cons_of_mem p hq)) ?_ he
      rw [objGet_objSet_ne]
      · exact hacc
      · exact hl p (List.mem_cons_self p rest)

theorem parseEnvFile_keys_nodup (content : String) (m : EnvVars)
    (h : parseEnvFile content = .ok m) : (keysOf m).Nodup := by
  unfold parseEnvFile interpolateVariables at h
  dsimp only at h
  exact interpolateKeys_nodup _ _ [] List.nodup_nil m h

theorem parseEnvFile_dangerous_none (content : String) (k : String)
    (hk : k ∈ DANGEROUS_ENV_VARS) (m : EnvVars)
    (h : parseEnvFile content = .ok m) : objGet m k = none := by
  unfold parseEnvFile interpolateVariables at h
  dsimp only at h
  have hvars := foldl_processLine_dangerous (splitNl content.data) ([], []) k hk rfl
  exact interpolateKeys_none _ _ [] k
    ((objGet_eq_none_iff _ k).mp hvars) rfl m h

/-! ## Lemmas about the per-directory loader -/

theorem loadFileStep_keys_nodup (e : Bool) (a : Except VarsetError Bool)
    (s : Nat) (c : String) (m : EnvVars)
    (h : loadFileStep e a s c = .ok m) : (keysOf m).Nodup := by
  unfold loadFileStep at h
  split at h
  · split at h
    · exact absurd h (by simp)
    · cases h; exact List.nodup_nil
    · split at h
      · exact absurd h (by simp)
      · exact parseEnvFile_keys_nodup c m h
  · cases h; exact List.nodup_nil

theorem loadFileStep_dangerous_none (e : Bool) (a : Except VarsetError Bool)
    (s : Nat) (c : String) (k : String) (hk : k ∈ DANGEROUS_ENV_VARS)
    (m : EnvVars) (h : loadFileStep e a s c = .ok m) : objGet m k = none := by
  unfold loadFileStep at h
  split at h
  · split at h
    · exact absurd h (by simp)
    · cases h; rfl
    · split at h
      · exact absurd h (by simp)
      · exact parseEnvFile_dangerous_none c k hk m h
  · cases h; rfl

theorem loadEnvFromDir_keys_nodup (d : DirConfig) :
    (keysOf (loadEnvFromDir d)).Nodup := by
  unfold loadEnvFromDir
  have hbase : (keysOf (match loadFileStep d.envrcExists d.envrcAllowed
      d.envrcSize d.envrcContent with
      | .ok m => m
      | .error _ => ([] : EnvVars))).Nodup := by
    cases hb : loadFileStep d.envrcExists d.envrcAllowed d.envrcSize d.envrcContent with
    | ok m => exact loadFileStep_keys_nodup _ _ _ _ m hb
    | error e => exact List.nodup_nil
  cases hn : d.profName with
  | none => simp only [hn]; exact objAssign_keys_nodup _ _ hbase
  | some pn =>
    simp only [hn]
    cases hp : loadFileStep d.profExists d.profAllowed d.profSize d.profContent with
    | ok m => exact objAssign_keys_nodup _ _ hbase
    | error e => exact hbase

theorem loadEnvFromDir_dangerous_none (d : DirConfig) (k : String)
    (hk : k ∈ DANGEROUS_ENV_VARS) : objGet (loadEnvFromDir d) k = none := by
  unfold loadEnvFromDir
  have hbase : objGet (match loadFileStep d.envrcExists d.envrcAllowed
      d.envrcSize d.envrcContent with
      | .ok m => m
      | .error _ => ([] : EnvVars)) k = none := by
    cases hb : loadFileStep d.envrcExists d.envrcAllowed d.envrcSize d.envrcContent with
    | ok m => exact loadFileStep_dangerous_none _ _ _ _ k hk m hb
    | error e => rfl
  cases hn : d.profName with
  | none =>
    simp only [hn]
    exact objGet_objAssign_none _ _ k hbase rfl
  | some pn =>
    simp only [hn]
    cases hp : loadFileStep d.profExists d.profAllowed d.profSize d.profContent with
    | ok m =>
      exact objGet_objAssign_none _ _ k hbase
        (loadFileStep_dangerous_none _ _ _ _ k hk m hp)
    | error e => exact hbase

/-! ## Claim C1 -/

/-- C1: for every directory chain handed to the merge loop of `loadUpward`
(`loadEnvRecursive`), a name defined by the directory nearest to the start
directory (index `i`, chain listed innermost first) wins over any same-named
definition of a directory further out: the merge assigns outermost first and
innermost last, so later assignments overwrite earlier ones. -/
theorem C1_inner_overrides_outer (ds : List DirConfig) (i : Nat)
    (hi : i < ds.length) (k v : String)
    (hdef : objGet (loadEnvFromDir (ds.get ⟨i, hi⟩)) k = some v)
    (hnone : ∀ j (hj : j < i),
      objGet (loadEnvFromDir (ds.get ⟨j, Nat.lt_trans hj hi⟩)) k = none) :
    objGet (loadChain ds) k = some v := by
  unfold loadChain
  have hi' : i < (ds.map loadEnvFromDir).length := by
    rw [List.length_map]; exact hi
  refine mergeChain_innermost _ ?_ i hi' k v ?_ ?_
  · intro m hm
    rcases List.mem_map.mp hm with ⟨d, _, rfl⟩
    exact loadEnvFromDir_keys_nodup d
  · simp only [List.get_eq_getElem, List.getElem_map]
    exact hdef
  · intro j hj
    simp only [List.get_eq_getElem, List.getElem_map]
    exact hnone j hj

/-- Witness directory for C1: the inner directory of the spec's example,
with a granted `.envrc` defining `VAR=inner`. -/
def innerDirC1 : DirConfig :=
  { envrcExists := true, envrcAllowed := .ok true, envrcSize := 10,
    envrcContent := "VAR=inner", profName := none, profExists := false,
    profAllowed := .ok false, profSize := 0, profContent := "" }

/-- Witness directory for C1: the outer directory of the spec's example,
with a granted `.envrc` defining `VAR=outer`. -/
def outerDirC1 : DirConfig :=
  { envrcExists := true, envrcAllowed := .ok true, envrcSize := 10,
    envrcContent := "VAR=outer", profName := none, profExists := false,
    profAllowed := .ok false, profSize := 0, profContent := "" }

/-- Witness for C1, the spec's own example: outer `VAR=outer`, inner
`VAR=inner`, both granted; the chain loaded from the inner directory yields
`VAR=inner`. -/
theorem C1_witness :
    objGet (loadChain [innerDirC1, outerDirC1]) "VAR" = some "inner" :=
  C1_inner_overrides_outer [innerDirC1, outerDirC1] 0 (by decide) "VAR" "inner"
    (by decide) (fun j hj => absurd hj (Nat.not_lt_zero j))

/-! ## Claim C2 -/

/-- An 11-level reference cycle `L1=$\x7bL2\x7d ... L11=$\x7bL1\x7d`. -/
def cycle11 : String :=
  "L1=${L2}\nL2=${L3}\nL3=${L4}\nL4=${L5}\nL5=${L6}\nL6=${L7}\nL7=${L8}\nL8=${L9}\nL9=${L10}\nL10=${L11}\nL11=${L1}"

/-- C2: `parseEnvFile` raises a ValidationError for a self-referential
variable, for mutually referential variables, and for a reference chain
exceeding the depth cap of 10 (the 11-level cycle); in the cyclic cases the
error message spells out the chain of names. -/
theorem C2_cycle_and_depth_validation :
    parseEnvFile "VAR=${VAR}" = .error (.circular ["VAR", "VAR"]) ∧
    (VarsetError.circular ["VAR", "VAR"]).message =
      "Circular variable reference detected: VAR -> VAR" ∧
    (VarsetError.circular ["VAR", "VAR"]).isValidationError = true ∧
    parseEnvFile "A=${B}\nB=${A}" = .error (.circular ["A", "B", "A"]) ∧
    (VarsetError.circular ["A", "B", "A"]).message =
      "Circular variable reference detected: A -> B -> A" ∧
    parseEnvFile cycle11 = .error (.interpolationDepth "L1") ∧
    (VarsetError.interpolationDepth "L1").isValidationError = true := by
  refine ⟨?_, ?_, ?_, ?_, ?_, ?_, ?_⟩ <;> decide

/-! ## Claim C3 -/

/-- C3: no mapping produced by `parseEnvFile` — and hence none produced by
the chain loader (`loadUpward`) or the single-directory loader
(`loadSingle`) — contains a key from the fixed dangerous-variable set; the
filter acts at parse time, before and independently of any permission
decision. -/
theorem C3_dangerous_always_stripped (k : String)
    (hk : k ∈ DANGEROUS_ENV_VARS) :
    (∀ content m, parseEnvFile content = .ok m → objGet m k = none) ∧
    (∀ ds : List DirConfig, objGet (loadChain ds) k = none) ∧
    (∀ chain : List (WalkDir × DirConfig),
      objGet (loadEnvRecursive chain) k = none) ∧
    (∀ d : DirConfig, objGet (loadEnvFromDirDown d) k = none) := by
  have hchain : ∀ ds : List DirConfig, objGet (loadChain ds) k = none := by
    intro ds
    unfold loadChain
    apply mergeChain_none
    intro m hm
    rcases List.mem_map.mp hm with ⟨d, _, rfl⟩
    exact loadEnvFromDir_dangerous_none d k hk
  refine ⟨fun content m h => parseEnvFile_dangerous_none content k hk m h,
    hchain, ?_, ?_⟩
  · intro chain
    unfold loadEnvRecursive
    exact hchain _
  · intro d
    unfold loadEnvFromDirDown
    exact loadEnvFromDir_dangerous_none d k hk

/-- Witness for C3, the spec's example: a granted file containing
`PATH=/evil` parses to a mapping with no `PATH` key. -/
theorem C3_witness :
    parseEnvFile "PATH=/evil\nFOO=1" = .ok [("FOO", "1")] ∧
    objGet [("FOO", "1")] "PATH" = none :=
  ⟨by decide,
    (C3_dangerous_always_stripped "PATH" (by decide)).1
      "PATH=/evil\nFOO=1" [("FOO", "1")] (by decide)⟩

/-! ## Claim C4 -/

/-- C4: `isAllowed` returns `true` iff path-safety validation passes and the
canonical path has a store entry whose `allowed` field is `true`; after a
`grant` it returns `true`, after a subsequent `revoke` it returns `false`,
a path with no entry yields `false` (default-deny), and a path-safety
failure yields `false` instead of raising. -/
theorem C4_isAllowed_semantics (home : String) (perms : Permissions)
    (p norm canon : String) (now now' : Nat) :
    (isAllowed home perms p norm canon = true ↔
      ((∃ w, validatePathSafety home p norm = .ok w) ∧
        ∃ entry, objGet perms canon = some entry ∧ entry.allowed = true)) ∧
    (∀ e, validatePathSafety home p norm = .error e →
      isAllowed home perms p norm canon = false) ∧
    (objGet perms canon = none → isAllowed home perms p norm canon = false) ∧
    (∀ perms2, allowPath home perms p norm canon now = .ok perms2 →
      isAllowed home perms2 p norm canon = true) ∧
    (∀ perms2 perms3, allowPath home perms p norm canon now = .ok perms2 →
      denyPath home perms2 p norm canon now' = .ok perms3 →
      isAllowed home perms3 p norm canon = false) := by
  refine ⟨?_, ?_, ?_, ?_, ?_⟩
  · unfold isAllowed
    cases hv : validatePathSafety home p norm with
    | error e =>
      apply iff_of_false
      · simp
      · rintro ⟨⟨w, hw⟩, -⟩
        cases hw
    | ok w =>
      cases hg : objGet perms canon with
      | none =>
        apply iff_of_false
        · simp
        · rintro ⟨-, entry, he, -⟩
          cases he
      | some entry =>
        constructor
        · intro ha
          exact ⟨⟨w, rfl⟩, entry, rfl, ha⟩
        · rintro ⟨-, entry', he, ha⟩
          cases he
          exact ha
  · intro e he
    unfold isAllowed
    rw [he]
  · intro hg
    unfold isAllowed
    cases hv : validatePathSafety home p norm with
    | error e => rfl
    | ok w => rw [hg]
  · intro perms2 hallow
    unfold allowPath at hallow
    cases hv : validatePathSafety home p norm with
    | error e => rw [hv] at hallow; cases hallow
    | ok w =>
      rw [hv] at hallow
      cases hallow
      unfold isAllowed
      rw [hv, objGet_objSet_self]
  · intro perms2 perms3 hallow hdeny
    unfold allowPath at hallow
    unfold denyPath at hdeny
    cases hv : validatePathSafety home p norm with
    | error e => rw [hv] at hallow; cases hallow
    | ok w =>
      rw [hv] at hallow hdeny
      cases hallow
      cases hdeny
      unfold isAllowed
      rw [hv, objGet_objSet_self]

/-- Witness for C4 at a concrete safe path: grant makes `isAllowed` true,
grant-then-revoke makes it false, an empty store answers false, and an
unsafe path answers false. -/
theorem C4_witness :
    isAllowed "/root" [("/root/proj/.envrc", ⟨true, 1⟩)] "/root/proj/.envrc"
      "/root/proj/.envrc" "/root/proj/.envrc" = true ∧
    isAllowed "/root" [("/root/proj/.envrc", ⟨false, 2⟩)] "/root/proj/.envrc"
      "/root/proj/.envrc" "/root/proj/.envrc" = false ∧
    isAllowed "/root" [] "/root/proj/.envrc" "/root/proj/.envrc"
      "/root/proj/.envrc" = false ∧
    isAllowed "/root" [("/root/x/.envrc", ⟨true, 1⟩)] "/root/../x/.envrc"
      "/root/../x/.envrc" "/root/x/.envrc" = false := by
  refine ⟨?_, ?_, ?_, ?_⟩
  · exact (C4_isAllowed_semantics "/root" [] "/root/proj/.envrc"
      "/root/proj/.envrc" "/root/proj/.envrc" 1 2).2.2.2.1 _ (by decide)
  · exact (C4_isAllowed_semantics "/root" [] "/root/proj/.envrc"
      "/root/proj/.envrc" "/root/proj/.envrc" 1 2).2.2.2.2
      [("/root/proj/.envrc", ⟨true, 1⟩)] [("/root/proj/.envrc", ⟨false, 2⟩)]
      (by decide) (by decide)
  · exact (C4_isAllowed_semantics "/root" [] "/root/proj/.envrc"
      "/root/proj/.envrc" "/root/proj/.envrc" 1 2).2.2.1 (by decide)
  · exact (C4_isAllowed_semantics "/root" [("/root/x/.envrc", ⟨true, 1⟩)]
      "/root/../x/.envrc" "/root/../x/.envrc" "/root/x/.envrc" 1 2).2.1
      (.pathTraversal "/root/../x/.envrc") (by decide)

/-! ## Claim C7 -/

/-- C7: `loadPermissions` raises a hard ValidationError exactly for an
oversized store file (over `MAX_FILE_SIZE` = 1 MB) or an entry count above
`MAX_PERMISSIONS_ENTRIES` = 10000; a missing file yields an empty store
silently and a corrupt file yields an empty store with a warning; and every
raised error is a ValidationError. -/
theorem C7_load_permissions_failure_semantics (stat : Option Nat)
    (parsed : Option Permissions) :
    (∀ size, stat = some size → MAX_FILE_SIZE < size →
      loadPermissions stat parsed = .error (.permsFileTooLarge size)) ∧
    (∀ size perms, stat = some size → size ≤ MAX_FILE_SIZE →
      parsed = some perms → MAX_PERMISSIONS_ENTRIES < perms.length →
      loadPermissions stat parsed = .error (.tooManyPermEntries perms.length)) ∧
    (stat = none → loadPermissions stat parsed = .ok ([], false)) ∧
    (∀ size, stat = some size → size ≤ MAX_FILE_SIZE → parsed = none →
      loadPermissions stat parsed = .ok ([], true)) ∧
    (∀ size perms, stat = some size → size ≤ MAX_FILE_SIZE →
      parsed = some perms → perms.length ≤ MAX_PERMISSIONS_ENTRIES →
      loadPermissions stat parsed = .ok (perms, false)) ∧
    (∀ e, loadPermissions stat parsed = .error e →
      e.isValidationError = true) := by
  refine ⟨?_, ?_, ?_, ?_, ?_, ?_⟩
  · intro size hs hgt
    subst hs
    simp [loadPermissions, hgt]
  · intro size perms hs hle hp hgt
    subst hs; subst hp
    simp [loadPermissions, Nat.not_lt.mpr hle, hgt]
  · intro hs
    subst hs
    rfl
  · intro size hs hle hp
    subst hs; subst hp
    simp [loadPermissions, Nat.not_lt.mpr hle]
  · intro size perms hs hle hp hcnt
    subst hs; subst hp
    simp [loadPermissions, Nat.not_lt.mpr hle, Nat.not_lt.mpr hcnt]
  · intro e he
    cases stat with
    | none => cases he
    | some size =>
      by_cases hgt : size > MAX_FILE_SIZE
      · have hrun : loadPermissions (some size) parsed =
            .error (.permsFileTooLarge size) := by
          simp [loadPermissions, hgt]
        rw [hrun] at he
        cases he
        rfl
      · cases parsed with
        | none =>
          have hrun : loadPermissions (some size) none = .ok ([], true) := by
            simp [loadPermissions, hgt]
          rw [hrun] at he
          cases he
        | some perms =>
          by_cases hcnt : perms.length > MAX_PERMISSIONS_ENTRIES
          · have hrun : loadPermissions (some size) (some perms) =
                .error (.tooManyPermEntries perms.length) := by
              simp [loadPermissions, hgt, hcnt]
            rw [hrun] at he
            cases he
            rfl
          · have hrun : loadPermissions (some size) (some perms) =
                .ok (perms, false) := by
              simp [loadPermissions, hgt, hcnt]
            rw [hrun] at he
            cases he

/-- Witness for C7: a 1 MB + 1 byte store raises, 10001 entries raise, a
missing store file and a corrupt store file both degrade to an empty
store. -/
theorem C7_witness :
    loadPermissions (some 1048577) (some []) =
      .error (.permsFileTooLarge 1048577) ∧
    loadPermissions (some 10)
        (some (List.replicate 10001 ("p", ⟨true, 0⟩))) =
      .error (.tooManyPermEntries
        (List.replicate 10001 (("p", ⟨true, 0⟩) : String × PermEntry)).length) ∧
    loadPermissions none none = .ok ([], false) ∧
    loadPermissions (some 10) none = .ok ([], true) ∧
    loadPermissions (some 10) (some [("p", ⟨true, 0⟩)]) =
      .ok ([("p", ⟨true, 0⟩)], false) := by
  refine ⟨?_, ?_, ?_, ?_, ?_⟩
  · exact (C7_load_permissions_failure_semantics (some 1048577) (some [])).1
      1048577 rfl (by decide)
  · exact (C7_load_permissions_failure_semantics (some 10)
      (some (List.replicate 10001 ("p", ⟨true, 0⟩)))).2.1
      10 (List.replicate 10001 ("p", ⟨true, 0⟩)) rfl (by decide) rfl
      (by rw [List.length_replicate]; decide)
  · exact (C7_load_permissions_failure_semantics none none).2.2.1 rfl
  · exact (C7_load_permissions_failure_semantics (some 10) none).2.2.2.1
      10 rfl (by decide) rfl
  · exact (C7_load_permissions_failure_semantics _ _).2.2.2.2.1
      10 [("p", ⟨true, 0⟩)] rfl (by decide) rfl (by decide)

/-! ## Claim C8 -/

/-- C8: every raw path containing `..` anywhere — including paths matching
the development exemptions `/test`, `/tmp` and dot-segments, since the
traversal check precedes the exemption check — makes `validatePathSafety`
raise, and `grant`/`revoke` propagate, a SecurityError; the rejection is an
error, never the advisory warning. -/
theorem C8_traversal_always_security_error (home p norm canon : String)
    (perms : Permissions) (now : Nat)
    (h : hasSub "..".data p.data = true) :
    validatePathSafety home p norm = .error (.pathTraversal p) ∧
    allowPath home perms p norm canon now = .error (.pathTraversal p) ∧
    denyPath home perms p norm canon now = .error (.pathTraversal p) ∧
    (VarsetError.pathTraversal p).isSecurityError = true := by
  have hp : p ≠ "" := by
    intro he
    subst he
    exact absurd h (by decide)
  have hv : validatePathSafety home p norm = .error (.pathTraversal p) := by
    unfold validatePathSafety
    rw [if_neg hp, if_pos h]
  refine ⟨hv, ?_, ?_, rfl⟩
  · unfold allowPath
    rw [hv]
  · unfold denyPath
    rw [hv]

/-- Witness for C8: a traversal path that also matches both the `/tmp` and
dot-segment exemptions is still rejected with a SecurityError by the
validator and by grant/revoke. -/
theorem C8_witness :
    validatePathSafety "/root" "/tmp/../etc/.envrc" "/etc/.envrc" =
      .error (.pathTraversal "/tmp/../etc/.envrc") ∧
    allowPath "/root" [] "/tmp/../etc/.envrc" "/etc/.envrc" "/etc/.envrc" 7 =
      .error (.pathTraversal "/tmp/../etc/.envrc") :=
  ⟨(C8_traversal_always_security_error "/root" "/tmp/../etc/.envrc"
      "/etc/.envrc" "/etc/.envrc" [] 7 (by decide)).1,
    (C8_traversal_always_security_error "/root" "/tmp/../etc/.envrc"
      "/etc/.envrc" "/etc/.envrc" [] 7 (by decide)).2.1⟩

/-! ## Claim C5 -/

/-- A directory whose `stat` reports device 1, inode 5. -/
def dirDev1Ino5 : WalkDir := ⟨some (1, 5), false⟩

/-- A different physical directory: device 2, same inode number 5. -/
def dirDev2Ino5 : WalkDir := ⟨some (2, 5), false⟩

/-- Counterexample for C5: the walk tracks `st.ino` alone, not device+inode.
Two directories on different devices sharing an inode number are treated as
one visit (the walk stops), whereas the device+inode tracking the spec
describes would visit both. -/
theorem C5_counterexample :
    collectChain id [dirDev1Ino5, dirDev2Ino5] [] = [dirDev1Ino5] ∧
    collectChainDevIno [dirDev1Ino5, dirDev2Ino5] [] =
      [dirDev1Ino5, dirDev2Ino5] ∧
    dirDev1Ino5.stat ≠ dirDev2Ino5.stat := by
  refine ⟨?_, ?_, ?_⟩ <;> decide

/-- Inode numbers of the directories a walk visited. -/
def chainInos (l : List WalkDir) : List Nat :=
  l.filterMap fun d => d.stat.map Prod.snd

/-- Rewrites a walk directory's device number, leaving inode and stop flag
unchanged. -/
def setDev (n : Nat) (d : WalkDir) : WalkDir :=
  ⟨d.stat.map fun st => (n, st.2), d.isStop⟩

/-- C5 amended: the symlink-loop guard stops the walk at the first directory
whose inode number was already visited, and that identity is the inode
number alone: no two visited directories share an inode number, the visited
prefix never revisits a previously seen inode, and the walk is completely
insensitive to device numbers.  Two path strings resolving to the same
physical directory (same device+inode, hence same inode) therefore still
count as one visit — but so do two directories that merely share an inode
number across different devices. -/
theorem C5_inode_only_visit_guard :
    (∀ (chain : List WalkDir) (seen : List Nat),
      (chainInos (collectChain id chain seen)).Nodup ∧
      ∀ i ∈ chainInos (collectChain id chain seen), i ∉ seen) ∧
    (∀ (chain : List WalkDir) (f : WalkDir → Nat) (seen : List Nat),
      collectChain id (chain.map fun d => setDev (f d) d) seen =
        (collectChain id chain seen).map fun d => setDev (f d) d) := by
  constructor
  · intro chain
    induction chain with
    | nil => intro seen; exact ⟨List.nodup_nil, by intro i hi; cases hi⟩
    | cons d rest ih =>
      intro seen
      unfold collectChain
      simp only [id_eq]
      cases hst : d.stat with
      | none =>
        simp only [hst]
        exact ⟨List.nodup_nil, by intro i hi; cases hi⟩
      | some st =>
        simp only [hst]
        by_cases hseen : st.2 ∈ seen
        · simp only [List.elem_eq_mem, decide_eq_true_eq]
          rw [if_pos hseen]
          exact ⟨List.nodup_nil, by intro i hi; cases hi⟩
        · simp only [List.elem_eq_mem, decide_eq_true_eq]
          rw [if_neg hseen]
          by_cases hstop : d.isStop
          · simp only [hstop, if_true]
            refine ⟨by simp [chainInos, hst], ?_⟩
            intro i hi
            simp [chainInos, hst] at hi
            subst hi
            exact hseen
          · simp only [hstop, Bool.false_eq_true, if_false]
            have hrec := ih (st.2 :: seen)
            have hc : chainInos (d :: collectChain id rest (st.2 :: seen)) =
                st.2 :: chainInos (collectChain id rest (st.2 :: seen)) := by
              simp [chainInos, hst]
            refine ⟨?_, ?_⟩
            · rw [hc, List.nodup_cons]
              refine ⟨?_, hrec.1⟩
              intro hmem
              exact hrec.2 st.2 hmem (List.mem_cons_self st.2 seen)
            · intro i hi
              rw [hc] at hi
              rcases List.mem_cons.mp hi with hi0 | hirec
              · subst hi0
                exact hseen
              · intro hmem
                exact hrec.2 i hirec (List.mem_cons_of_mem st.2 hmem)
  · intro chain f
    induction chain with
    | nil => intro seen; rfl
    | cons d rest ih =>
      intro seen
      unfold collectChain
      simp only [id_eq, List.map_cons]
      cases hst : d.stat with
      | none =>
        have hst2 : (setDev (f d) d).stat = none := by simp [setDev, hst]
        rw [hst2]
        rfl
      | some st =>
        have hst2 : (setDev (f d) d).stat = some (f d, st.2) := by
          simp [setDev, hst]
        rw [hst2]
        dsimp only
        have hstop2 : (setDev (f d) d).isStop = d.isStop := rfl
        by_cases hseen : st.2 ∈ seen
        · simp only [List.elem_eq_mem, decide_eq_true_eq]
          rw [if_pos hseen, if_pos hseen]
          rfl
        · simp only [List.elem_eq_mem, decide_eq_true_eq]
          rw [if_neg hseen, if_neg hseen]
          simp only [hstop2, List.map_cons]
          by_cases hstop : d.isStop
          · rw [if_pos hstop, if_pos hstop]
            rfl
          · rw [if_neg hstop, if_neg hstop]
            rw [ih (st.2 :: seen)]

/-- Witness for C5 amended, applied to the concrete two-directory chain of
the counterexample. -/
theorem C5_amended_witness :
    (chainInos (collectChain id [dirDev1Ino5, dirDev2Ino5] [])).Nodup ∧
    (5 : Nat) ∉ ([] : List Nat) :=
  ⟨(C5_inode_only_visit_guard.1 [dirDev1Ino5, dirDev2Ino5] []).1,
    (C5_inode_only_visit_guard.1 [dirDev1Ino5, dirDev2Ino5] []).2 5 (by decide)⟩

/-! ## Claim C6 -/

theorem map_eraseIdx {α β : Type} (f : α → β) (l : List α) (i : Nat) :
    (l.eraseIdx i).map f = (l.map f).eraseIdx i := by
  induction l generalizing i with
  | nil => simp
  | cons a rest ih =>
    cases i with
    | zero => simp [List.eraseIdx]
    | succ j => simp [List.eraseIdx, ih]

/-- Removing a chain element that contributes no variables does not change
the merged result. -/
theorem mergeChain_eraseIdx (ms : List EnvVars) (i : Nat) (hi : i < ms.length)
    (h : ms.get ⟨i, hi⟩ = []) :
    mergeChain ms = mergeChain (ms.eraseIdx i) := by
  induction ms generalizing i with
  | nil => cases hi
  | cons m rest ih =>
    cases i with
    | zero =>
      have hm : m = [] := h
      subst hm
      rw [mergeChain_cons]
      rfl
    | succ j =>
      show mergeChain (m :: rest) = mergeChain (m :: rest.eraseIdx j)
      rw [mergeChain_cons, mergeChain_cons,
        ih j (Nat.lt_of_succ_lt_succ hi) h]

/-- A directory whose granted `.envrc` contains `X=1` and parses cleanly. -/
def goodDirC6 : DirConfig :=
  { envrcExists := true, envrcAllowed := .ok true, envrcSize := 3,
    envrcContent := "X=1", profName := none, profExists := false,
    profAllowed := .ok false, profSize := 0, profContent := "" }

/-- A directory whose granted `.envrc` contains the cyclic `A=$\x7bA\x7d`,
so that parsing it raises a ValidationError. -/
def cyclicDirC6 : DirConfig :=
  { envrcExists := true, envrcAllowed := .ok true, envrcSize := 8,
    envrcContent := "A=${A}", profName := none, profExists := false,
    profAllowed := .ok false, profSize := 0, profContent := "" }

/-- Counterexample for C6: parsing the cyclic file does raise a
ValidationError, and that error would surface from the per-directory load
step — but `loadEnvFromDir` catches it, the directory contributes no
variables, and the enclosing chain load and single-directory load complete
normally instead of propagating the error. -/
theorem C6_counterexample :
    parseEnvFile "A=${A}" = .error (.circular ["A", "A"]) ∧
    loadFileStep true (.ok true) 8 "A=${A}" = .error (.circular ["A", "A"]) ∧
    loadEnvFromDir cyclicDirC6 = [] ∧
    loadChain [goodDirC6, cyclicDirC6] = [("X", "1")] ∧
    loadEnvFromDirDown cyclicDirC6 = [] := by
  refine ⟨?_, ?_, ?_, ?_, ?_⟩ <;> decide

/-- C6 amended: a cross-cutting structural failure raised while loading a
directory's configuration (cyclic interpolation from `parseEnvFile`, an
oversized store from `isAllowed`, an oversized file from `safeReadFile`) is
caught inside the per-directory loader: that directory contributes no
variables, and the enclosing `loadUpward`/`loadSingle` continues exactly as
if the directory were absent, rather than aborting. -/
theorem C6_error_confined_per_directory (d : DirConfig) (e : VarsetError)
    (hbase : loadFileStep d.envrcExists d.envrcAllowed d.envrcSize
      d.envrcContent = .error e)
    (hprof : d.profName = none) :
    loadEnvFromDir d = [] ∧
    loadEnvFromDirDown d = [] ∧
    (∀ (ds : List DirConfig) (i : Nat) (hi : i < ds.length),
      loadEnvFromDir (ds.get ⟨i, hi⟩) = [] →
      loadChain ds = loadChain (ds.eraseIdx i)) := by
  have h1 : loadEnvFromDir d = [] := by
    unfold loadEnvFromDir
    rw [hbase, hprof]
    rfl
  refine ⟨h1, h1, ?_⟩
  intro ds i hi hz
  unfold loadChain
  have hi2 : i < (ds.map loadEnvFromDir).length := by
    rw [List.length_map]; exact hi
  have hz2 : (ds.map loadEnvFromDir).get ⟨i, hi2⟩ = [] := by
    simp only [List.get_eq_getElem, List.getElem_map]
    exact hz
  rw [mergeChain_eraseIdx _ i hi2 hz2, ← map_eraseIdx]

/-- Witness for C6 amended at the counterexample's inputs: the cyclic
directory contributes nothing, and dropping it from the chain leaves the
chain load unchanged. -/
theorem C6_witness :
    loadEnvFromDir cyclicDirC6 = [] ∧
    loadChain [goodDirC6, cyclicDirC6] =
      loadChain ([goodDirC6, cyclicDirC6].eraseIdx 1) :=
  ⟨(C6_error_confined_per_directory cyclicDirC6 (.circular ["A", "A"])
      (by decide) rfl).1,
    (C6_error_confined_per_directory cyclicDirC6 (.circular ["A", "A"])
      (by decide) rfl).2.2 [goodDirC6, cyclicDirC6] 1 (by decide) (by decide)⟩

/-! ## Claim C10 -/

/-- Substitution only surfaces circular errors produced by the resolver it
was given, so any chain-length bound on the resolver's circular errors
carries over. -/
theorem substToks_circular_bound (vars : EnvVars)
    (resolveNext : String → Except VarsetError String) (B : Nat)
    (hres : ∀ n ch, resolveNext n = .error (.circular ch) → ch.length ≤ B) :
    ∀ (toks : List Tok) (ch : List String),
      substToks vars resolveNext toks = .error (.circular ch) →
      ch.length ≤ B := by
  intro toks
  induction toks with
  | nil =>
    intro ch h
    simp [substToks] at h
  | cons t rest ih =>
    intro ch h
    unfold substToks at h
    cases t with
    | lit c =>
      dsimp only at h
      cases hs : substToks vars resolveNext rest with
      | error e =>
        rw [hs] at h
        injection h with h2
        subst h2
        exact ih ch hs
      | ok s =>
        rw [hs] at h
        simp at h
    | ref n =>
      dsimp only at h
      by_cases hn : objHas vars n = true
      · rw [if_pos hn] at h
        cases hr : resolveNext n with
        | error e =>
          rw [hr] at h
          injection h with h2
          subst h2
          exact hres n ch hr
        | ok rep =>
          rw [hr] at h
          cases hs : substToks vars resolveNext rest with
          | error e =>
            rw [hs] at h
            injection h with h2
            subst h2
            exact ih ch hs
          | ok s =>
            rw [hs] at h
            simp at h
      · rw [if_neg hn] at h
        cases hs : substToks vars resolveNext rest with
        | error e =>
          rw [hs] at h
          injection h with h2
          subst h2
          exact ih ch hs
        | ok s =>
          rw [hs] at h
          simp at h

/-- A circular error raised while resolving with gas `g` and visiting set
`vis` names a chain of at most `vis.length + g - 1` entries: the cycle
check only fires while the depth check still has room. -/
theorem resolveVar_circular_bound (vars : EnvVars) :
    ∀ (g : Nat) (key : String) (vis : List String) (ch : List String),
      resolveVar vars g key vis = .error (.circular ch) →
      ch.length ≤ vis.length + g - 1 := by
  intro g
  induction g with
  | zero =>
    intro key vis ch h
    rw [resolveVar_zero] at h
    cases hv : objGet vars key with
    | none => rw [hv] at h; simp at h
    | some v =>
      rw [hv] at h
      dsimp only at h
      by_cases hv0 : v = ""
      · rw [if_pos hv0] at h; simp at h
      · rw [if_neg hv0] at h; simp at h
  | succ g ih =>
    intro key vis ch h
    cases g with
    | zero =>
      rw [resolveVar_one] at h
      cases hv : objGet vars key with
      | none => rw [hv] at h; simp at h
      | some v =>
        rw [hv] at h
        dsimp only at h
        by_cases hv0 : v = ""
        · rw [if_pos hv0] at h; simp at h
        · rw [if_neg hv0] at h; simp at h
    | succ g2 =>
      rw [resolveVar_succ2] at h
      cases hv : objGet vars key with
      | none => rw [hv] at h; simp at h
      | some v =>
        rw [hv] at h
        dsimp only at h
        by_cases hv0 : v = ""
        · rw [if_pos hv0] at h; simp at h
        · rw [if_neg hv0] at h
          by_cases hvk : vis.contains key = true
          · rw [if_pos hvk] at h
            injection h with h2
            injection h2 with h3
            rw [← h3, List.length_append]
            simp
          · rw [if_neg hvk] at h
            have hres : ∀ n ch',
                resolveVar vars (Nat.succ g2) n (vis ++ [key]) =
                  .error (.circular ch') →
                ch'.length ≤ vis.length + g2 + 1 := by
              intro n ch' h'
              have hb := ih n (vis ++ [key]) ch' h'
              rw [List.length_append, List.length_singleton] at hb
              omega
            have := substToks_circular_bound vars _ (vis.length + g2 + 1)
              hres (tokenize v.data) ch h
            omega

/-- The per-key interpolation loop inherits the bound at the top-level call
(`vis = ∅`, gas `MAX_INTERPOLATION_DEPTH + 2`). -/
theorem interpolateKeys_circular_bound (vars : EnvVars) :
    ∀ (l : List (String × String)) (acc : EnvVars) (ch : List String),
      interpolateKeys vars l acc = .error (.circular ch) →
      ch.length ≤ MAX_INTERPOLATION_DEPTH + 1 := by
  intro l
  induction l with
  | nil =>
    intro acc ch h
    simp [interpolateKeys] at h
  | cons p rest ih =>
    intro acc ch h
    unfold interpolateKeys at h
    cases hr : resolveVar vars (MAX_INTERPOLATION_DEPTH + 2) p.1 [] with
    | error e =>
      rw [hr] at h
      injection h with h2
      subst h2
      have := resolveVar_circular_bound vars (MAX_INTERPOLATION_DEPTH + 2)
        p.1 [] ch hr
      simpa using this
    | ok r =>
      rw [hr] at h
      exact ih _ ch h

/-- Every circular-reference error `parseEnvFile` ever raises names a chain
of at most 11 entries, i.e. the cycle was detected within 10 resolution
steps. -/
theorem parseEnvFile_circular_bound (content : String) (ch : List String)
    (h : parseEnvFile content = .error (.circular ch)) :
    ch.length ≤ MAX_INTERPOLATION_DEPTH + 1 := by
  unfold parseEnvFile interpolateVariables at h
  dsimp only at h
  exact interpolateKeys_circular_bound _ _ _ ch h

/-- A 10-level reference cycle `M1=$\x7bM2\x7d ... M10=$\x7bM1\x7d`. -/
def cycle10 : String :=
  "M1=${M2}\nM2=${M3}\nM3=${M4}\nM4=${M5}\nM5=${M6}\nM6=${M7}\nM7=${M8}\nM8=${M9}\nM9=${M10}\nM10=${M1}"

/-- C10: the depth guard is checked before the cycle guard on each
resolution step, so a cycle through 11 distinct variables is reported as
the depth-exceeded ValidationError (the revisit would only be noticed at
depth 11, past the cap), a cycle through 10 distinct variables is still
reported as the circular-reference ValidationError, and every
circular-reference error parse raises names a chain of at most
`MAX_INTERPOLATION_DEPTH + 1` entries — a cycle detected within 10 steps. -/
theorem C10_depth_check_precedes_cycle_check :
    parseEnvFile cycle11 = .error (.interpolationDepth "L1") ∧
    parseEnvFile cycle10 = .error (.circular
      ["M1", "M2", "M3", "M4", "M5", "M6", "M7", "M8", "M9", "M10", "M1"]) ∧
    (∀ (content : String) (ch : List String),
      parseEnvFile content = .error (.circular ch) →
      ch.length ≤ MAX_INTERPOLATION_DEPTH + 1) :=
  ⟨by decide, by decide,
    fun content ch h => parseEnvFile_circular_bound content ch h⟩

/-- Witness for C10's universal part at the mutual-reference input: its
circular chain `A -> B -> A` has 3 entries, within the bound. -/
theorem C10_witness :
    (["A", "B", "A"] : List String).length ≤ MAX_INTERPOLATION_DEPTH + 1 :=
  C10_depth_check_precedes_cycle_check.2.2 "A=${B}\nB=${A}" ["A", "B", "A"]
    (by decide)

/-! ## Claim C9: character-class and trimming lemmas -/

theorem isNameChar_not_space {c : Char} (h : isNameChar c = true) :
    isSpaceChar c = false := by
  by_contra hc
  simp only [Bool.not_eq_false] at hc
  simp only [isSpaceChar, Bool.or_eq_true, decide_eq_true_eq] at hc
  rcases hc with ((((h1 | h1) | h1) | h1) | h1) | h1 <;>
    (subst h1; revert h; decide)

theorem isNameStartChar_isNameChar {c : Char} (h : isNameStartChar c = true) :
    isNameChar c = true := by
  simp [isNameChar, h]

theorem isNameChar_ne {c x : Char} (h : isNameChar c = true)
    (hx : isNameChar x = false) : c ≠ x := by
  intro he
  subst he
  rw [h] at hx
  cases hx

theorem trimLeft_cons_of_not_space {c : Char} (l : List Char)
    (h : isSpaceChar c = false) : trimLeft (c :: l) = c :: l := by
  simp [trimLeft, List.dropWhile_cons, h]

theorem dropWhile_eq_self_of_head {p : Char → Bool} {c : Char}
    (l : List Char) (h : p c = false) :
    (c :: l).dropWhile p = c :: l := by
  simp [List.dropWhile_cons, h]

theorem trimRight_append_of_last (xs ys : List Char)
    (c : Char) (hlast : xs.getLast? = some c) (hc : isSpaceChar c = false) :
    trimRight (xs ++ ys) = xs ++ trimRight ys := by
  unfold trimRight
  rw [List.reverse_append, List.dropWhile_append]
  have hrev : xs.reverse.head? = some c := by
    rw [List.head?_reverse]; exact hlast
  obtain ⟨rest, hxs⟩ : ∃ rest, xs.reverse = c :: rest := by
    cases hx : xs.reverse with
    | nil => rw [hx] at hrev; cases hrev
    | cons a r =>
      rw [hx] at hrev
      injection hrev with ha
      subst ha
      exact ⟨r, rfl⟩
  by_cases hy : (ys.reverse.dropWhile isSpaceChar).isEmpty
  · rw [if_pos hy]
    have hys : ys.reverse.dropWhile isSpaceChar = [] :=
      List.isEmpty_iff.mp hy
    rw [hxs, dropWhile_eq_self_of_head rest hc, ← hxs, List.reverse_reverse,
      hys]
    simp
  · rw [if_neg hy]
    rw [List.reverse_append, List.reverse_reverse]

theorem dropWhile_idem (p : Char → Bool) (l : List Char) :
    (l.dropWhile p).dropWhile p = l.dropWhile p := by
  induction l with
  | nil => rfl
  | cons c rest ih =>
    by_cases hc : p c
    · simp [List.dropWhile_cons, hc, ih]
    · simp [List.dropWhile_cons, hc]

theorem trimRight_idem (l : List Char) : trimRight (trimRight l) = trimRight l := by
  unfold trimRight
  rw [List.reverse_reverse, dropWhile_idem]

theorem trimChars_trimRight (l : List Char) :
    trimChars (trimRight l) = trimChars l := by
  unfold trimChars
  rw [trimRight_idem]

theorem trimChars_of_all_nonspace (l : List Char)
    (h : ∀ c ∈ l, isSpaceChar c = false) : trimChars l = l := by
  have htr : trimRight l = l := by
    unfold trimRight
    cases hx : l.reverse with
    | nil =>
      have hl : l = [] := by simpa using congrArg List.reverse hx
      simp [hl]
    | cons a r =>
      have ha : isSpaceChar a = false := by
        apply h
        rw [← List.mem_reverse, hx]
        exact List.mem_cons_self a r
      rw [dropWhile_eq_self_of_head r ha, ← hx, List.reverse_reverse]
  unfold trimChars
  rw [htr]
  cases l with
  | nil => rfl
  | cons c rest =>
    exact trimLeft_cons_of_not_space rest (h c (List.mem_cons_self c rest))

/-- Trimming a `KEY=VALUE` line whose key is a valid name only trims the
right end of the value. -/
theorem trimChars_keyValue (kc : List Char) (v : List Char)
    (hk : ∀ c ∈ kc, isNameChar c = true) (hne : kc ≠ []) :
    trimChars (kc ++ '=' :: v) = kc ++ '=' :: trimRight v := by
  have heq : kc ++ '=' :: v = (kc ++ ['=']) ++ v := by
    rw [List.append_assoc]; rfl
  have heq2 : kc ++ '=' :: trimRight v = (kc ++ ['=']) ++ trimRight v := by
    rw [List.append_assoc]; rfl
  rw [heq, heq2]
  unfold trimChars
  rw [trimRight_append_of_last (kc ++ ['=']) v '=' (by simp) (by decide)]
  obtain ⟨c, krest, rfl⟩ : ∃ c krest, kc = c :: krest := by
    cases kc with
    | nil => exact absurd rfl hne
    | cons c krest => exact ⟨c, krest, rfl⟩
  rw [List.cons_append, List.cons_append]
  exact trimLeft_cons_of_not_space _
    (isNameChar_not_space (hk c (List.mem_cons_self c krest)))

/-! ## Claim C9: line-shape lemmas -/

theorem valid_name_chars (kc : List Char) (hk : isValidName kc = true) :
    ∀ c ∈ kc, isNameChar c = true := by
  cases kc with
  | nil => exact absurd hk (by decide)
  | cons c rest =>
    simp only [isValidName, Bool.and_eq_true, List.all_eq_true] at hk
    intro x hx
    rcases List.mem_cons.mp hx with h1 | h2
    · subst h1
      exact isNameStartChar_isNameChar hk.1
    · exact hk.2 x h2

/-- A `KEY=VALUE` line with a valid name as key never starts with the
`export ` keyword: the seventh character would have to be a space or the
equals sign would have to occur among the first seven characters, and
neither is a name character. -/
theorem no_export_prefix (kc ys : List Char) (hk : isValidName kc = true) :
    ("export ".data).isPrefixOf (kc ++ '=' :: ys) = false := by
  have hchars := valid_name_chars kc hk
  by_contra hc
  simp only [Bool.not_eq_false] at hc
  rw [List.isPrefixOf_iff_prefix] at hc
  obtain ⟨t, ht⟩ := hc
  rcases kc with _ | ⟨c1, kc⟩
  · simp only [List.nil_append] at ht
    injection ht with h1 _
    exact absurd h1 (by decide)
  rcases kc with _ | ⟨c2, kc⟩
  · simp only [List.cons_append, List.nil_append] at ht
    injection ht with h1 ht
    injection ht with h2 _
    exact absurd h2 (by decide)
  rcases kc with _ | ⟨c3, kc⟩
  · simp only [List.cons_append, List.nil_append] at ht
    injection ht with h1 ht
    injection ht with h2 ht
    injection ht with h3 _
    exact absurd h3 (by decide)
  rcases kc with _ | ⟨c4, kc⟩
  · simp only [List.cons_append, List.nil_append] at ht
    injection ht with h1 ht
    injection ht with h2 ht
    injection ht with h3 ht
    injection ht with h4 _
    exact absurd h4 (by decide)
  rcases kc with _ | ⟨c5, kc⟩
  · simp only [List.cons_append, List.nil_append] at ht
    injection ht with h1 ht
    injection ht with h2 ht
    injection ht with h3 ht
    injection ht with h4 ht
    injection ht with h5 _
    exact absurd h5 (by decide)
  rcases kc with _ | ⟨c6, kc⟩
  · simp only [List.cons_append, List.nil_append] at ht
    injection ht with h1 ht
    injection ht with h2 ht
    injection ht with h3 ht
    injection ht with h4 ht
    injection ht with h5 ht
    injection ht with h6 _
    exact absurd h6 (by decide)
  · simp only [List.cons_append] at ht
    injection ht with h1 ht
    injection ht with h2 ht
    injection ht with h3 ht
    injection ht with h4 ht
    injection ht with h5 ht
    injection ht with h6 ht
    rcases kc with _ | ⟨c7, kc⟩
    · simp only [List.nil_append] at ht
      injection ht with h7 _
      exact absurd h7 (by decide)
    · simp only [List.cons_append] at ht
      injection ht with h7 _
      have : isNameChar c7 = true := by
        apply hchars
        simp
      rw [← h7] at this
      exact absurd this (by decide)

theorem findEqIdx_keyValue (kc ys : List Char)
    (hk : ∀ c ∈ kc, isNameChar c = true) :
    findEqIdx (kc ++ '=' :: ys) = some kc.length := by
  induction kc with
  | nil => simp [findEqIdx]
  | cons c rest ih =>
    have hc : c ≠ '=' :=
      isNameChar_ne (hk c (List.mem_cons_self c rest)) (by decide)
    rw [List.cons_append]
    unfold findEqIdx
    rw [if_neg hc, ih (fun x hx => hk x (List.mem_cons_of_mem c hx))]
    rfl

/-- A line of the exact shape `KEY=VALUE`, with a valid name as key, parses
to that key and to the value trimmed and quote-stripped. -/
theorem parseLine_keyValue (kc v : List Char) (hk : isValidName kc = true) :
    parseLine (kc ++ '=' :: v) = some (kc, stripQuotes (trimChars v)) := by
  have hchars := valid_name_chars kc hk
  have hne : kc ≠ [] := by
    intro h
    subst h
    exact absurd hk (by decide)
  have htrim : trimChars (kc ++ '=' :: v) = kc ++ '=' :: trimRight v :=
    trimChars_keyValue kc v hchars hne
  obtain ⟨c, krest, rfl⟩ : ∃ c krest, kc = c :: krest := by
    cases kc with
    | nil => exact absurd rfl hne
    | cons c krest => exact ⟨c, krest, rfl⟩
  have hc0 : isNameChar c = true := hchars c (List.mem_cons_self c krest)
  have hhash : c ≠ '#' := isNameChar_ne hc0 (by decide)
  unfold parseLine
  dsimp only
  rw [htrim, List.cons_append]
  dsimp only
  rw [if_neg hhash]
  rw [show ("export ".data).isPrefixOf
      (c :: (krest ++ '=' :: trimRight v)) = false from
    no_export_prefix (c :: krest) (trimRight v) hk]
  simp only [Bool.false_eq_true, if_false]
  rw [show findEqIdx (c :: (krest ++ '=' :: trimRight v)) =
      some (c :: krest).length from
    findEqIdx_keyValue (c :: krest) (trimRight v) hchars]
  dsimp only
  rw [show (c :: (krest ++ '=' :: trimRight v)).take (c :: krest).length =
      c :: krest from List.take_left (c :: krest) ('=' :: trimRight v)]
  rw [show (c :: (krest ++ '=' :: trimRight v)).drop ((c :: krest).length + 1) =
      trimRight v by
    rw [← List.drop_drop]
    rw [show (c :: (krest ++ '=' :: trimRight v)).drop (c :: krest).length =
        '=' :: trimRight v from List.drop_left (c :: krest) ('=' :: trimRight v)]
    rfl]
  rw [trimChars_of_all_nonspace (c :: krest)
    (fun x hx => isNameChar_not_space (hchars x hx))]
  rw [trimChars_trimRight]

/-! ## Claim C9: tokenizer round-trip and no-reference substitution -/

theorem drop_takeWhile_length (p : Char → Bool) (l : List Char) :
    l.drop (l.takeWhile p).length = l.dropWhile p := by
  induction l with
  | nil => rfl
  | cons c rest ih =>
    by_cases hc : p c
    · simp [List.takeWhile_cons, List.dropWhile_cons, hc, ih]
    · simp [List.takeWhile_cons, List.dropWhile_cons, hc]

/-- Unfolding equation of `tokenizeF` on a non-empty input. -/
theorem tokenizeF_cons (fuel : Nat) (c : Char) (rest : List Char) :
    tokenizeF (fuel + 1) (c :: rest) =
      if c = '$' ∧ rest.head? = some '{' then
        if isValidName (rest.tail.takeWhile isNameChar) ∧
            (rest.tail.drop (rest.tail.takeWhile isNameChar).length).head? =
              some '}' then
          .ref (String.mk (rest.tail.takeWhile isNameChar)) ::
            tokenizeF fuel
              (rest.tail.drop (rest.tail.takeWhile isNameChar).length).tail
        else
          .lit '$' :: tokenizeF fuel rest
      else
        .lit c :: tokenizeF fuel rest := rfl

theorem tokenizeF_render (fuel : Nat) :
    ∀ cs : List Char, cs.length < fuel →
      renderToks (tokenizeF fuel cs) = cs := by
  induction fuel with
  | zero =>
    intro cs h
    exact absurd h (Nat.not_lt_zero _)
  | succ f ih =>
    intro cs hlen
    cases cs with
    | nil => rfl
    | cons c rest =>
      rw [tokenizeF_cons]
      by_cases hm : c = '$' ∧ rest.head? = some '{'
      · rw [if_pos hm]
        obtain ⟨rest2, hrest⟩ : ∃ rest2, rest = '{' :: rest2 := by
          cases hr : rest with
          | nil => rw [hr] at hm; cases hm.2
          | cons a r =>
            rw [hr] at hm
            have h2 := hm.2
            simp only [List.head?_cons, Option.some.injEq] at h2
            subst h2
            exact ⟨r, rfl⟩
        subst hrest
        obtain rfl : c = '$' := hm.1
        simp only [List.tail_cons]
        by_cases hcond : isValidName (rest2.takeWhile isNameChar) = true ∧
            (rest2.drop (rest2.takeWhile isNameChar).length).head? = some '}'
        · rw [if_pos hcond]
          obtain ⟨rest3, hdrop⟩ :
              ∃ rest3, rest2.drop (rest2.takeWhile isNameChar).length =
                '}' :: rest3 := by
            cases hd : rest2.drop (rest2.takeWhile isNameChar).length with
            | nil => rw [hd] at hcond; cases hcond.2
            | cons a r =>
              rw [hd] at hcond
              have h2 := hcond.2
              simp only [List.head?_cons, Option.some.injEq] at h2
              subst h2
              exact ⟨r, rfl⟩
          rw [hdrop]
          simp only [List.tail_cons]
          unfold renderToks
          have hlen3 : rest3.length < f := by
            have h1 : (rest2.drop (rest2.takeWhile isNameChar).length).length ≤
                rest2.length := by
              rw [List.length_drop]
              omega
            rw [hdrop] at h1
            simp only [List.length_cons] at h1 hlen
            omega
          rw [ih rest3 hlen3]
          have hsplit : rest2.takeWhile isNameChar ++ '}' :: rest3 = rest2 := by
            rw [← hdrop, drop_takeWhile_length]
            exact List.takeWhile_append_dropWhile isNameChar rest2
          have hname : (String.mk (rest2.takeWhile isNameChar)).data =
              rest2.takeWhile isNameChar := rfl
          rw [hname, hsplit]
        · rw [if_neg hcond]
          unfold renderToks
          have hl : ('{' :: rest2).length < f := by
            simp only [List.length_cons] at hlen ⊢
            omega
          rw [ih ('{' :: rest2) hl]
      · rw [if_neg hm]
        unfold renderToks
        have hl : rest.length < f := by
          simp only [List.length_cons] at hlen
          omega
        rw [ih rest hl]

/-- Round trip: rendering the token stream of a value reproduces it. -/
theorem tokenize_render (cs : List Char) :
    renderToks (tokenize cs) = cs :=
  tokenizeF_render (cs.length + 1) cs (Nat.lt_succ_self _)

/-- Names of the references in a token stream (so that
`refNames cs = refNamesToks (tokenize cs)` definitionally). -/
def refNamesToks (toks : List Tok) : List String :=
  toks.filterMap fun t =>
    match t with
    | .ref n => some n
    | .lit _ => none

/-- Substitution leaves a token stream verbatim when none of its references
names a defined variable. -/
theorem substToks_verbatim (vars : EnvVars)
    (resolveNext : String → Except VarsetError String) :
    ∀ toks : List Tok,
      (∀ n ∈ refNamesToks toks, objHas vars n = false) →
      substToks vars resolveNext toks = .ok (String.mk (renderToks toks)) := by
  intro toks
  induction toks with
  | nil => intro h; rfl
  | cons t rest ih =>
    intro h
    cases t with
    | lit c =>
      unfold substToks
      rw [ih (fun n hn => h n (by
        simp [refNamesToks] at hn ⊢
        exact hn))]
      rfl
    | ref n =>
      have hn : objHas vars n = false := h n (by simp [refNamesToks])
      unfold substToks
      rw [hn]
      simp only [Bool.false_eq_true, if_false]
      rw [ih (fun x hx => h x (by
        simp [refNamesToks] at hx ⊢
        exact Or.inr hx))]
      dsimp only
      apply congrArg
      apply String.ext
      simp only [String.data_append]
      simp [renderToks]

/-- A defined variable whose value references no defined names resolves to
its own value at the top-level call. -/
theorem resolveVar_no_refs (vars : EnvVars) (k w : String)
    (hget : objGet vars k = some w)
    (href : ∀ n ∈ refNames w.data, objHas vars n = false) :
    resolveVar vars (MAX_INTERPOLATION_DEPTH + 2) k [] = .ok w := by
  have h12 : MAX_INTERPOLATION_DEPTH + 2 = Nat.succ (Nat.succ 10) := rfl
  rw [h12, resolveVar_succ2, hget]
  dsimp only
  by_cases hw : w = ""
  · rw [if_pos hw, hw]
  · rw [if_neg hw]
    rw [show (([] : List String).contains k) = false from rfl]
    simp only [Bool.false_eq_true, if_false]
    rw [substToks_verbatim vars _ (tokenize w.data) href]
    rw [tokenize_render]

/-- Interpolating a single-binding mapping whose value references no
defined name leaves the mapping unchanged. -/
theorem interpolate_single_no_refs (k w : String)
    (href : ∀ n ∈ refNames w.data, objHas [(k, w)] n = false) :
    interpolateVariables [(k, w)] = .ok [(k, w)] := by
  unfold interpolateVariables interpolateKeys
  rw [resolveVar_no_refs [(k, w)] k w (by simp [objGet]) href]
  rfl

/-- Splitting a newline-free text yields the one-line list. -/
theorem splitNl_single : ∀ cs : List Char, (∀ c ∈ cs, c ≠ '\n') →
    splitNl cs = [cs] := by
  intro cs
  induction cs with
  | nil => intro h; rfl
  | cons c rest ih =>
    intro h
    unfold splitNl
    rw [if_neg (h c (List.mem_cons_self c rest))]
    rw [ih (fun x hx => h x (List.mem_cons_of_mem c hx))]

/-- Counterexample for C9: the unquoted raw value `$\x7bA\x7d` of `B` does
not pass through verbatim — interpolation (applied by `parseEnvFile` after
quote stripping) rewrites it to `A`'s value. -/
theorem C9_counterexample :
    parseEnvFile "A=x\nB=${A}" = .ok [("A", "x"), ("B", "x")] ∧
    objGet [("A", "x"), ("B", "x")] "B" ≠ some "${A}" := by
  refine ⟨?_, ?_⟩ <;> decide

/-- C9 amended: for a `KEY=VALUE` line whose (trimmed, quote-stripped) value
contains no `$\x7bNAME\x7d` reference to a name defined in the file, parse
stores exactly the trimmed raw value with one quote layer stripped: a value
that starts and ends with the same (single or double) quote character loses
exactly its first and last characters, and any other value passes through
verbatim.  Values with references to defined names are further rewritten by
interpolation. -/
theorem C9_quote_strip_verbatim (k v : String)
    (hk : isValidName k.data = true)
    (hdang : k ∉ DANGEROUS_ENV_VARS)
    (hnl : ∀ c ∈ v.data, c ≠ '\n')
    (href : ∀ n ∈ refNames (stripQuotes (trimChars v.data)), n ≠ k) :
    parseEnvFile (k ++ "=" ++ v) =
      .ok [(k, String.mk (stripQuotes (trimChars v.data)))] ∧
    (isQuoteWrapped (trimChars v.data) = true →
      stripQuotes (trimChars v.data) = ((trimChars v.data).drop 1).dropLast) ∧
    (isQuoteWrapped (trimChars v.data) = false →
      stripQuotes (trimChars v.data) = trimChars v.data) := by
  refine ⟨?_, ?_, ?_⟩
  · have hchars := valid_name_chars k.data hk
    have hdata : (k ++ "=" ++ v).data = k.data ++ '=' :: v.data := by
      simp [String.data_append]
    have hline : ∀ c ∈ k.data ++ '=' :: v.data, c ≠ '\n' := by
      intro c hc
      rcases List.mem_append.mp hc with hc1 | hc2
      · exact isNameChar_ne (hchars c hc1) (by decide)
      · rcases List.mem_cons.mp hc2 with hc3 | hc4
        · subst hc3; decide
        · exact hnl c hc4
    unfold parseEnvFile
    rw [hdata, splitNl_single _ hline]
    show interpolateVariables
      (processLine ([], []) (k.data ++ '=' :: v.data)).1 = _
    unfold processLine
    rw [parseLine_keyValue k.data v.data hk]
    dsimp only
    rw [if_pos hk]
    have heta : String.mk k.data = k := rfl
    have hcont : DANGEROUS_ENV_VARS.contains (String.mk k.data) = false := by
      rw [heta]
      cases hc : DANGEROUS_ENV_VARS.contains k with
      | false => rfl
      | true =>
        exfalso
        apply hdang
        simpa using hc
    rw [hcont]
    simp only [Bool.false_eq_true, if_false]
    rw [heta]
    show interpolateVariables (objSet [] k
      (String.mk (stripQuotes (trimChars v.data)))) = _
    have hobjset : objSet ([] : EnvVars) k
        (String.mk (stripQuotes (trimChars v.data))) =
        [(k, String.mk (stripQuotes (trimChars v.data)))] := rfl
    rw [hobjset]
    apply interpolate_single_no_refs
    intro n hn
    have hnk : n ≠ k := href n hn
    simp [objHas]
    exact fun he => hnk (Eq.symm he)
  · intro h
    unfold stripQuotes
    rw [if_pos h]
  · intro h
    unfold stripQuotes
    rw [if_neg (by rw [h]; intro hc; cases hc)]

/-- Witness for C9 amended at the spec's own examples: `VAR="a b"` yields
`a b`, `VAR='a b'` yields `a b`, and an unquoted plain value passes through
verbatim. -/
theorem C9_witness :
    parseEnvFile "VAR=\"a b\"" =
      .ok [("VAR", String.mk (stripQuotes (trimChars "\"a b\"".data)))] ∧
    String.mk (stripQuotes (trimChars "\"a b\"".data)) = "a b" ∧
    parseEnvFile "VAR='a b'" =
      .ok [("VAR", String.mk (stripQuotes (trimChars "'a b'".data)))] ∧
    String.mk (stripQuotes (trimChars "'a b'".data)) = "a b" ∧
    parseEnvFile "X=hello" =
      .ok [("X", String.mk (stripQuotes (trimChars "hello".data)))] ∧
    String.mk (stripQuotes (trimChars "hello".data)) = "hello" :=
  ⟨(C9_quote_strip_verbatim "VAR" "\"a b\"" (by decide) (by decide)
      (by decide) (by
        intro n hn
        rw [show refNames (stripQuotes (trimChars "\"a b\"".data)) = []
          from by decide] at hn
        cases hn)).1,
    by decide,
    (C9_quote_strip_verbatim "VAR" "'a b'" (by decide) (by decide)
      (by decide) (by
        intro n hn
        rw [show refNames (stripQuotes (trimChars "'a b'".data)) = []
          from by decide] at hn
        cases hn)).1,
    by decide,
    (C9_quote_strip_verbatim "X" "hello" (by decide) (by decide)
      (by decide) (by
        intro n hn
        rw [show refNames (stripQuotes (trimChars "hello".data)) = []
          from by decide] at hn
        cases hn)).1,
    by decide⟩

end Varset
